import Mathlib

/-!
# go-session: the in-memory session provider

A shallow embedding of `providers/memory/memory.go`.

* Pointers are addresses (`Nat`).  Every `list.Element` is created by the
  `PushBack` of `SessionInit` together with the one `SessionStore` it carries,
  so a single address names the element and its store; `Provider.heap` gives
  the store found behind an address and `Provider.next` is the next address
  the allocator hands out.
* `container/list` is the sequence of the linked elements, front first.
* `time.Time` is represented by its `Unix()` value (seconds); each operation
  reads the clock once and receives it as the argument `now`.
* Every operation is one atomic state transformer; the mutex appears only in the
  access traces of the section on lock discipline.
* Package session (`session.go`) is modelled after the memory provider: the
  registry of providers, `Manager`, and the standard library functions they call.
-/

namespace GoSession

/-! ## Data model -/

/-- Go `interface{}` values used as payload keys and values, by the ways a value
can behave as a map key: nil, strings and integers are comparable; a float64 NaN can
be hashed but is not equal to itself (it stands for every key with that behaviour);
a slice stands for the values of an unhashable dynamic type, on which every map
access panics. -/
inductive Iface where
  | nil
  | str (s : String)
  | int (n : Int)
  | nan
  | slice (xs : List Int)
  deriving DecidableEq, Repr

/-- Whether the dynamic type of the value can be hashed; a map access with another
key panics (`runtime error: hash of unhashable type`), also on an empty map. -/
def Iface.hashable : Iface → Bool
  | Iface.slice _ => false
  | _ => true

/-- Go `==` of a key with itself: false only for NaN. -/
def Iface.selfEqual : Iface → Bool
  | Iface.nan => false
  | _ => true

/-- Go `error` results; `none` is the nil error. -/
abbrev GoError := Option String

/-- Run-time faults (Go panics). -/
inductive Fault where
  | nilDereference
  | unhashableKey
  deriving DecidableEq, Repr

/-- Type `type SessionStore struct { sid; timeAccessed; value }`. -/
structure SessionStore where
  sid : String
  timeAccessed : Int
  value : Iface → Option Iface

/-- Type `type Provider struct { lock; sessions; list }` together with the part of the
Go heap it points into. -/
structure Provider where
  sessions : String → Option Nat
  list : List Nat
  heap : Nat → SessionStore
  next : Nat

/-- The freshly made payload `make(map[interface{}]interface{}, 0)`. -/
def emptyValue : Iface → Option Iface := fun _ => none

/-- The package variable `provider` after `init()`:
`&Provider{list: list.New()}` with `sessions = make(map[string]*list.Element, 0)`. -/
def provider : Provider :=
  { sessions := fun _ => none
    list := []
    heap := fun _ => { sid := "", timeAccessed := 0, value := emptyValue }
    next := 0 }

/-! ## container/list -/

/-- List `l.PushBack(v)`: the new element is linked after the last one. -/
def PushBack (l : List Nat) (e : Nat) : List Nat := l ++ [e]

/-- List `l.Remove(e)`: unlinks `e` when it is an element of `l`, otherwise does nothing. -/
def Remove (l : List Nat) (e : Nat) : List Nat := l.erase e

/-- List `l.MoveToFront(e)`: does nothing when `e` is not an element of `l` (or is
already the front), otherwise relinks `e` before the first element. -/
def MoveToFront (l : List Nat) (e : Nat) : List Nat :=
  if e ∈ l then e :: l.erase e else l

/-- List `l.Back()`: the last element, or nil for the empty list. -/
def Back (l : List Nat) : Option Nat := l.getLast?

/-! ## Machine arithmetic -/

/-- Two's-complement wrap-around of `int64` arithmetic. -/
def wrapInt64 (x : Int) : Int := (x + 2 ^ 63) % 2 ^ 64 - 2 ^ 63

/-- The values an `int64` can hold. -/
def InInt64 (x : Int) : Prop := -(2 ^ 63) ≤ x ∧ x < 2 ^ 63

instance (x : Int) : Decidable (InInt64 x) := by
  unfold InInt64
  exact inferInstance

/-! ## Provider operations -/

/-- Method `func (p *Provider) SessionInit(sid string) (session.Session, error)`. -/
def SessionInit (p : Provider) (now : Int) (sid : String) : Provider × Nat × GoError :=
  let store : SessionStore := { sid := sid, timeAccessed := now, value := emptyValue }
  let element := p.next
  ({ sessions := Function.update p.sessions sid (some element)
     list := PushBack p.list element
     heap := Function.update p.heap element store
     next := p.next + 1 }, element, none)

/-- Method `func (p *Provider) SessionRead(sid string) (session.Session, error)`.
When the lookup fails (`!ok`) the nil `element` is dereferenced; when it
succeeds control falls through to `SessionInit`. -/
def SessionRead (p : Provider) (now : Int) (sid : String) :
    Except Fault (Provider × Nat × GoError) :=
  match p.sessions sid with
  | none => Except.error Fault.nilDereference
  | some _ => Except.ok (SessionInit p now sid)

/-- Method `func (p *Provider) SessionDestroy(sid string) error`. -/
def SessionDestroy (p : Provider) (sid : String) : Provider × GoError :=
  match p.sessions sid with
  | some element =>
    ({ p with
        sessions := Function.update p.sessions sid none
        list := Remove p.list element }, none)
  | none => (p, none)

/-- The loop test of `SessionGC`:
`(e.Value.(*SessionStore).timeAccessed.Unix() + maxlifetime) < time.Now().Unix()`. -/
def expired (p : Provider) (now maxlifetime : Int) (e : Nat) : Bool :=
  decide (wrapInt64 ((p.heap e).timeAccessed + maxlifetime) < now)

/-- The removing branch of the loop of `SessionGC`:
`provider.list.Remove(e)` then `delete(provider.sessions, e.Value.(*SessionStore).sid)`. -/
def gcRemove (p : Provider) (e : Nat) : Provider :=
  { p with
      list := Remove p.list e
      sessions := Function.update p.sessions (p.heap e).sid none }

/-- The `for` loop of `SessionGC`, one pass per unit of fuel. -/
def gcLoop : Nat → Provider → Int → Int → Provider
  | 0, p, _, _ => p
  | fuel + 1, p, now, maxlifetime =>
    match Back p.list with
    | none => p
    | some e =>
      if expired p now maxlifetime e then gcLoop fuel (gcRemove p e) now maxlifetime
      else p

/-- Method `func (p *Provider) SessionGC(maxlifetime int64)`.  Every pass that does not
leave the loop unlinks one element, so `len(list)` passes always suffice
(see `gcLoop_fuel`). -/
def SessionGC (p : Provider) (now : Int) (maxlifetime : Int) : Provider :=
  gcLoop p.list.length p now maxlifetime

/-- Method `func (p *Provider) SessionUpdate(sid string) error`. -/
def SessionUpdate (p : Provider) (now : Int) (sid : String) : Provider × GoError :=
  match p.sessions sid with
  | some e =>
    ({ p with
        heap := Function.update p.heap e { p.heap e with timeAccessed := now }
        list := MoveToFront p.list e }, none)
  | none => (p, none)

/-! ## SessionStore methods (the receiver is the address `s` of the store) -/

/-- The map of a payload is represented by its lookup: what `m[key]` finds for a
hashable key.  A NaN key is never found. -/
def mapLookup (m : Iface → Option Iface) (key : Iface) : Option Iface :=
  if key.selfEqual then m key else none

/-- The assignment `m[key] = value` for a hashable key.  An entry stored under NaN
can never be found again, so the lookup is as before. -/
def mapStore (m : Iface → Option Iface) (key value : Iface) : Iface → Option Iface :=
  if key.selfEqual then Function.update m key (some value) else m

/-- The statement `delete(m, key)` for a hashable key; NaN matches no entry. -/
def mapDelete (m : Iface → Option Iface) (key : Iface) : Iface → Option Iface :=
  if key.selfEqual then Function.update m key none else m

/-- Method `func (s *SessionStore) Set(key, value interface{}) error`: the state the
call leaves and its result, or the panic of `s.value[key] = value` on an unhashable
key, which happens before anything is changed. -/
def SessionStore.Set (p : Provider) (now : Int) (s : Nat) (key value : Iface) :
    Provider × Except Fault GoError :=
  if key.hashable then
    let p1 : Provider :=
      { p with
          heap := Function.update p.heap s
            { p.heap s with value := mapStore (p.heap s).value key value } }
    ((SessionUpdate p1 now (p1.heap s).sid).1, Except.ok none)
  else (p, Except.error Fault.unhashableKey)

/-- Method `func (s *SessionStore) Get(key interface{}) interface{}`: the state the
call leaves and its result, or the panic of `s.value[key]` on an unhashable key,
which happens after `provider.SessionUpdate(s.sid)`. -/
def SessionStore.Get (p : Provider) (now : Int) (s : Nat) (key : Iface) :
    Provider × Except Fault Iface :=
  let p1 := (SessionUpdate p now (p.heap s).sid).1
  if key.hashable then
    match mapLookup (p1.heap s).value key with
    | some v => (p1, Except.ok v)
    | none => (p1, Except.ok Iface.nil)
  else (p1, Except.error Fault.unhashableKey)

/-- Method `func (s *SessionStore) Delete(key interface{}) error`: the state the call
leaves and its result, or the panic of `delete(s.value, key)` on an unhashable key,
which happens before anything is changed. -/
def SessionStore.Delete (p : Provider) (now : Int) (s : Nat) (key : Iface) :
    Provider × Except Fault GoError :=
  if key.hashable then
    let p1 : Provider :=
      { p with
          heap := Function.update p.heap s
            { p.heap s with value := mapDelete (p.heap s).value key } }
    ((SessionUpdate p1 now (p1.heap s).sid).1, Except.ok none)
  else (p, Except.error Fault.unhashableKey)

/-- Method `func (s *SessionStore) SessionID() string`. -/
def SessionStore.SessionID (p : Provider) (s : Nat) : String := (p.heap s).sid

/-! ## Call sequences -/

/-- One call of a provider operation. -/
inductive Call where
  | init (sid : String)
  | read (sid : String)
  | update (sid : String)
  | destroy (sid : String)
  | gc (maxlifetime : Int)
  deriving DecidableEq, Repr

/-- The state after one call made at time `now`, or the fault it raises. -/
def step (p : Provider) (now : Int) : Call → Except Fault Provider
  | Call.init sid => Except.ok (SessionInit p now sid).1
  | Call.read sid => (SessionRead p now sid).map (fun r => r.1)
  | Call.update sid => Except.ok (SessionUpdate p now sid).1
  | Call.destroy sid => Except.ok (SessionDestroy p sid).1
  | Call.gc maxlifetime => Except.ok (SessionGC p now maxlifetime)

/-- The state after a sequence of timed calls; a fault aborts the sequence. -/
def run (p : Provider) : List (Int × Call) → Except Fault Provider
  | [] => Except.ok p
  | (now, c) :: rest =>
    match step p now c with
    | Except.ok q => run q rest
    | Except.error f => Except.error f

/-! ## State predicates -/

/-- Representation invariant of the Go data structures: a list links an element
at most once, every linked or mapped address has been allocated, and every map
entry points to a linked element whose store carries the key as its `sid`. -/
structure WF (p : Provider) : Prop where
  nodup : p.list.Nodup
  alloc : ∀ e ∈ p.list, e < p.next
  linked : ∀ k e, p.sessions k = some e → e ∈ p.list ∧ (p.heap e).sid = k

/-- The index holds exactly one entry per live session: besides `WF`, every
linked element is the one its `sid` is mapped to. -/
structure OneEntryPerSession (p : Provider) : Prop where
  wf : WF p
  mapped : ∀ e ∈ p.list, p.sessions (p.heap e).sid = some e

/-- Read front to back, the index is in non-increasing order of last-accessed time. -/
def Ordered (p : Provider) : Prop :=
  p.list.Pairwise (fun a b => (p.heap b).timeAccessed ≤ (p.heap a).timeAccessed)

instance (p : Provider) : Decidable (Ordered p) := by
  unfold Ordered
  exact inferInstance

/-- A sequence of `SessionUpdate` calls, each with its clock reading and identifier. -/
def touchAll (p : Provider) (calls : List (Int × String)) : Provider :=
  calls.foldl (fun q c => (SessionUpdate q c.1 c.2).1) p

/-- The sequence makes no `SessionRead`, and each of its `SessionInit` calls is
made with an identifier that is not a key of the identifier map at that moment. -/
def initsFresh (p : Provider) : List (Int × Call) → Bool
  | [] => true
  | (now, Call.init sid) :: rest =>
    (p.sessions sid).isNone && initsFresh (SessionInit p now sid).1 rest
  | (_, Call.read _) :: _ => false
  | (now, Call.update sid) :: rest => initsFresh (SessionUpdate p now sid).1 rest
  | (_, Call.destroy sid) :: rest => initsFresh (SessionDestroy p sid).1 rest
  | (now, Call.gc maxlifetime) :: rest => initsFresh (SessionGC p now maxlifetime) rest

/-! ## Example states -/

/-- The registry after `SessionInit("a")` at time 0. -/
def oneSession : Provider := (SessionInit provider 0 "a").1

/-- The registry after `SessionInit("a")` at time 0 and `Set("k", 1)` on the
returned session, also at time 0. -/
def oneSessionWithPayload : Provider :=
  (SessionStore.Set oneSession 0 0 (Iface.str "k") (Iface.int 1)).1

/-- The registry after `SessionInit("a")` at time 0 and `SessionInit("b")` at time 10. -/
def twoSessions : Provider := (SessionInit oneSession 10 "b").1

/-- The registry of `twoSessions` after `SessionUpdate("b")` at time 20 and
`SessionUpdate("a")` at time 50: the index is then front to back `a`, `b`. -/
def twoTouched : Provider := touchAll twoSessions [(20, "b"), (50, "a")]

/-! ## Lock discipline

The operations again, each paired with the accesses it makes, in program order, to
the mutex, to the identifier map, to the index and to the session records.  The
first component is the uninstrumented operation. -/

/-- One access of a provider operation to the mutex or to shared data. -/
inductive Event where
  | lock
  | unlock
  | mapRead
  | mapWrite
  | listRead
  | listWrite
  | storeRead
  | storeWrite
  deriving DecidableEq, Repr

/-- `SessionInit` with its accesses: `p.lock.Lock()`, the deferred `Unlock`,
`list.PushBack`, `sessions[sid] = element`. -/
def SessionInitT (p : Provider) (now : Int) (sid : String) :
    (Provider × Nat × GoError) × List Event :=
  (SessionInit p now sid, [Event.lock, Event.listWrite, Event.mapWrite, Event.unlock])

/-- `SessionRead` with its accesses: the lookup `provider.sessions[sid]`, then
either the fault or the call of `SessionInit`. -/
def SessionReadT (p : Provider) (now : Int) (sid : String) :
    Except Fault (Provider × Nat × GoError) × List Event :=
  match p.sessions sid with
  | none => (Except.error Fault.nilDereference, [Event.mapRead])
  | some _ => (Except.ok (SessionInitT p now sid).1, Event.mapRead :: (SessionInitT p now sid).2)

/-- `SessionDestroy` with its accesses: the lookup, then `delete` and `list.Remove`. -/
def SessionDestroyT (p : Provider) (sid : String) : (Provider × GoError) × List Event :=
  match p.sessions sid with
  | some element =>
    (({ p with
        sessions := Function.update p.sessions sid none
        list := Remove p.list element }, none),
      [Event.mapRead, Event.mapWrite, Event.listWrite])
  | none => ((p, none), [Event.mapRead])

/-- The loop of `SessionGC` with its accesses: `list.Back()`, the read of
`timeAccessed`, `list.Remove(e)`, `delete(sessions, sid)`. -/
def gcLoopT : Nat → Provider → Int → Int → Provider × List Event
  | 0, p, _, _ => (p, [])
  | fuel + 1, p, now, maxlifetime =>
    match Back p.list with
    | none => (p, [Event.listRead])
    | some e =>
      if expired p now maxlifetime e then
        ((gcLoopT fuel (gcRemove p e) now maxlifetime).1,
          [Event.listRead, Event.storeRead, Event.listWrite, Event.mapWrite] ++
            (gcLoopT fuel (gcRemove p e) now maxlifetime).2)
      else (p, [Event.listRead, Event.storeRead])

/-- `SessionGC` with its accesses: `provider.lock.Lock()`, the loop, the deferred
`Unlock`.  One pass more than `len(list)` lets the loop reach its own exit. -/
def SessionGCT (p : Provider) (now : Int) (maxlifetime : Int) : Provider × List Event :=
  ((gcLoopT (p.list.length + 1) p now maxlifetime).1,
    Event.lock :: ((gcLoopT (p.list.length + 1) p now maxlifetime).2 ++ [Event.unlock]))

/-- `SessionUpdate` with its accesses: `Lock`, the lookup, the write of
`timeAccessed`, `list.MoveToFront`, the deferred `Unlock`. -/
def SessionUpdateT (p : Provider) (now : Int) (sid : String) :
    (Provider × GoError) × List Event :=
  match p.sessions sid with
  | some e =>
    (({ p with
        heap := Function.update p.heap e { p.heap e with timeAccessed := now }
        list := MoveToFront p.list e }, none),
      [Event.lock, Event.mapRead, Event.storeWrite, Event.listWrite, Event.unlock])
  | none => ((p, none), [Event.lock, Event.mapRead, Event.unlock])

/-- Whether every access to the identifier map and to the index in the trace is
made with the mutex held; the flag says whether it is held at the start. -/
def guardedFrom : Bool → List Event → Bool
  | _, [] => true
  | _, Event.lock :: t => guardedFrom true t
  | _, Event.unlock :: t => guardedFrom false t
  | held, Event.storeRead :: t => guardedFrom held t
  | held, Event.storeWrite :: t => guardedFrom held t
  | held, Event.mapRead :: t => held && guardedFrom held t
  | held, Event.mapWrite :: t => held && guardedFrom held t
  | held, Event.listRead :: t => held && guardedFrom held t
  | held, Event.listWrite :: t => held && guardedFrom held t

/-- The operation holds the lock during every read or mutation of the identifier
map and of the index (it is entered with the mutex free). -/
def Guarded (t : List Event) : Prop := guardedFrom false t = true

instance (t : List Event) : Decidable (Guarded t) := by
  unfold Guarded
  exact inferInstance

/-- The number of index entries a sweep inspects: the reads of `timeAccessed`. -/
def inspected (t : List Event) : Nat := t.count Event.storeRead

/-! ## Standard library functions used by session.go

A Go `string` is a sequence of bytes; it is represented by the `String` whose
characters are those bytes. -/

/-- The alphabet of `base64.URLEncoding`. -/
def encodeURL : List Char :=
  "ABCDEFGHIJKLMNOPQRSTUVWXYZabcdefghijklmnopqrstuvwxyz0123456789-_".data

/-- The character of a 6-bit value in `base64.URLEncoding`. -/
def urlDigit (n : Nat) : Char := encodeURL.getD (n % 64) 'A'

/-- The characters of `base64.URLEncoding.EncodeToString`: three bytes give four
characters, and a last group of one or two bytes is padded with `=`. -/
def encodeBytes : List Nat → List Char
  | [] => []
  | [a] => [urlDigit (a / 4), urlDigit (a % 4 * 16), '=', '=']
  | [a, b] => [urlDigit (a / 4), urlDigit (a % 4 * 16 + b / 16), urlDigit (b % 16 * 4), '=']
  | a :: b :: c :: rest =>
    urlDigit (a / 4) :: urlDigit (a % 4 * 16 + b / 16) :: urlDigit (b % 16 * 4 + c / 64) ::
      urlDigit (c % 64) :: encodeBytes rest

/-- Standard library `base64.URLEncoding.EncodeToString` on a sequence of bytes. -/
def EncodeToString (b : List Nat) : String := String.mk (encodeBytes b)

/-- The test `shouldEscape(c, encodeQueryComponent)` of package `net/url`: letters,
digits and `-`, `_`, `.`, `~` are left as they are. -/
def shouldEscape (c : Char) : Bool :=
  !(c.isAlphanum || c = '-' || c = '_' || c = '.' || c = '~')

/-- The digit of `upperhex` for a 4-bit value. -/
def upperhex (n : Nat) : Char := "0123456789ABCDEF".data.getD (n % 16) '0'

/-- The characters of `url.QueryEscape`: a space becomes `+`, a byte that must be
escaped becomes `%` and its two hexadecimal digits. -/
def escapeChars : List Char → List Char
  | [] => []
  | c :: rest =>
    if c = ' ' then '+' :: escapeChars rest
    else if shouldEscape c then
      '%' :: upperhex (c.toNat / 16) :: upperhex (c.toNat % 16) :: escapeChars rest
    else c :: escapeChars rest

/-- Standard library `url.QueryEscape`. -/
def QueryEscape (s : String) : String := String.mk (escapeChars s.data)

/-- The test `ishex` of package `net/url`. -/
def ishex (c : Char) : Bool :=
  c.isDigit || ('a' ≤ c && c ≤ 'f') || ('A' ≤ c && c ≤ 'F')

/-- The value `unhex` of a hexadecimal digit. -/
def unhex (c : Char) : Nat :=
  if c.isDigit then c.toNat - '0'.toNat
  else if 'a' ≤ c && c ≤ 'f' then c.toNat - 'a'.toNat + 10
  else if 'A' ≤ c && c ≤ 'F' then c.toNat - 'A'.toNat + 10
  else 0

/-- The characters of `url.QueryUnescape`, or nothing for a `%` that is not
followed by two hexadecimal digits: `%XY` becomes the byte XY, `+` a space. -/
def unescapeChars : List Char → Option (List Char)
  | [] => some []
  | c :: rest =>
    if c = '%' then
      match rest with
      | a :: b :: rest2 =>
        if ishex a && ishex b then
          (unescapeChars rest2).map (fun r => Char.ofNat (unhex a * 16 + unhex b) :: r)
        else none
      | _ => none
    else if c = '+' then (unescapeChars rest).map (fun r => ' ' :: r)
    else (unescapeChars rest).map (fun r => c :: r)

/-- Standard library `url.QueryUnescape`: the unescaped string and a nil error,
or the empty string and an `EscapeError`. -/
def QueryUnescape (s : String) : String × GoError :=
  match unescapeChars s.data with
  | some r => (String.mk r, none)
  | none => ("", some "invalid URL escape")

/-! ## Package session (session.go) -/

/-- Interface `type Provider interface` of package session: the four methods of a
backend, over the state the backend keeps. -/
structure session.Provider (σ : Type) where
  SessionInit : σ → Int → String → σ × Nat × GoError
  SessionRead : σ → Int → String → Except Fault (σ × Nat × GoError)
  SessionDestroy : σ → String → σ × GoError
  SessionGC : σ → Int → Int → σ

/-- The value registered by `init()` of package memory:
`session.Register("memory", provider)`. -/
def memory : session.Provider Provider :=
  { SessionInit := SessionInit
    SessionRead := SessionRead
    SessionDestroy := SessionDestroy
    SessionGC := SessionGC }

/-- Function `func Register(name string, provider Provider)` on the package
variable `providers`; the error is the message of the panic.  A nil interface
value is `none`. -/
def session.Register {P : Type} (providers : String → Option P) (name : String)
    (provider : Option P) : Except String (String → Option P) :=
  match provider with
  | none => Except.error "session: Register provide is nil"
  | some pv =>
    match providers name with
    | some _ => Except.error ("session: Register called twice for provide " ++ name)
    | none => Except.ok (Function.update providers name (some pv))

/-- Type `type Manager struct { cookieName; lock; provider; maxlifetime }`. -/
structure session.Manager (P : Type) where
  cookieName : String
  provider : P
  maxlifetime : Int

/-- Function `func NewManager(providerName, cookieName string, maxlifetime int64)
(*Manager, error)`, returned together with the package variable `providers` as it
is left.  The argument `quote` is the formatting of the verb `%q`. -/
def session.NewManager {P : Type} (quote : String → String) (providers : String → Option P)
    (providerName cookieName : String) (maxlifetime : Int) :
    (String → Option P) × Option (session.Manager P) × GoError :=
  match providers providerName with
  | none =>
    (providers, none,
      some ("session: unknown provider " ++ quote providerName ++ " (forgotten import?)"))
  | some pv =>
    (providers,
      some { provider := pv, cookieName := cookieName, maxlifetime := maxlifetime }, none)

/-- The fields of `http.Cookie` that session.go sets. -/
structure Cookie where
  Name : String
  Value : String
  Path : String
  HttpOnly : Bool
  Expires : Option Int
  MaxAge : Int
  deriving DecidableEq, Repr

/-- Method `func (m *Manager) sessionID() string`.  The argument is what
`io.ReadFull(rand.Reader, b)` does with the 32-byte buffer: it fills it, or fails. -/
def session.Manager.sessionID (entropy : Option (List Nat)) : String :=
  match entropy with
  | none => ""
  | some b => EncodeToString b

/-- The test `isToken` of package `net/http` on one byte of a cookie name. -/
def isTokenChar (c : Char) : Bool :=
  c.isAlphanum || c = '!' || c = '#' || c = '$' || c = '%' || c = '&' || c = Char.ofNat 39 ||
    c = '*' || c = '+' || c = '-' || c = '.' || c = '^' || c = '_' || c = Char.ofNat 96 ||
    c = '|' || c = '~'

/-- The test `isCookieNameValid` of package `net/http`: a non-empty token. -/
def isCookieNameValid (name : String) : Bool :=
  !name.data.isEmpty && name.data.all isTokenChar

/-- Standard library `http.SetCookie(w, &cookie)`: the cookie for which a
`Set-Cookie` header is added to the response; none is added when the name of the
cookie is not valid. -/
def SetCookie (c : Cookie) : Option Cookie :=
  if isCookieNameValid c.Name then some c else none

/-- Method `func (m *Manager) SessionStart(w, r) Session`.  The request is the value
of its cookie named `m.cookieName`, if it carries one; the result is the state of
the backend, the session and the cookie set on the response, if one is set. -/
def session.Manager.SessionStart {σ : Type} (m : session.Manager (session.Provider σ))
    (st : σ) (now : Int) (entropy : Option (List Nat)) (cookie : Option String) :
    Except Fault (σ × Nat × Option Cookie) :=
  if cookie = none ∨ cookie = some "" then
    let sid := session.Manager.sessionID entropy
    let r := m.provider.SessionInit st now sid
    Except.ok (r.1, r.2.1,
      SetCookie { Name := m.cookieName, Value := QueryEscape sid, Path := "/",
                  HttpOnly := true, Expires := none, MaxAge := m.maxlifetime })
  else
    let sid := (QueryUnescape (cookie.getD "")).1
    match m.provider.SessionRead st now sid with
    | Except.error f => Except.error f
    | Except.ok r => Except.ok (r.1, r.2.1, none)

/-- Method `func (m *Manager) SessionDestroy(w, r)`: the state of the backend and
the cookie set on the response, if one is set. -/
def session.Manager.SessionDestroy {σ : Type} (m : session.Manager (session.Provider σ))
    (st : σ) (now : Int) (cookie : Option String) : σ × Option Cookie :=
  if cookie = none ∨ cookie = some "" then (st, none)
  else
    ((m.provider.SessionDestroy st (cookie.getD "")).1,
      SetCookie { Name := m.cookieName, Value := "", Path := "/", HttpOnly := true,
                  Expires := some now, MaxAge := -1 })

/-- The identifier `Manager.SessionStart` passes to `provider.SessionRead` for a
request that carries a non-empty cookie value. -/
def startIdentifier (cookieValue : String) : String := (QueryUnescape cookieValue).1

/-- The identifier `Manager.SessionDestroy` passes to `provider.SessionDestroy` for
a request that carries a non-empty cookie value. -/
def destroyIdentifier (cookieValue : String) : String := cookieValue

/-- A manager of the memory backend: `NewManager("memory", "sid", 3600)`. -/
def memoryManager : session.Manager (session.Provider Provider) :=
  { cookieName := "sid", provider := memory, maxlifetime := 3600 }

/-- Thirty-two zero bytes from the random source. -/
def zeroEntropy : List Nat := List.replicate 32 0

/-! ## Helper lemmas: the representation invariant -/

theorem provider_WF : WF provider :=
  ⟨List.nodup_nil, by simp [provider], by simp [provider]⟩

theorem SessionInit_WF (p : Provider) (now : Int) (sid : String) (h : WF p) :
    WF (SessionInit p now sid).1 := by
  have hn : p.next ∉ p.list := fun hm => Nat.lt_irrefl _ (h.alloc _ hm)
  refine ⟨?_, ?_, ?_⟩
  · simp only [SessionInit, PushBack]
    exact List.nodup_append.mpr ⟨h.nodup, List.nodup_singleton _, by simpa using hn⟩
  · intro e he
    simp only [SessionInit, PushBack, List.mem_append, List.mem_singleton] at he ⊢
    rcases he with he | he
    · exact Nat.lt_succ_of_lt (h.alloc e he)
    · omega
  · intro k e hk
    simp only [SessionInit, PushBack, List.mem_append, List.mem_singleton] at hk ⊢
    by_cases hks : k = sid
    · subst hks
      simp only [Function.update_same, Option.some.injEq] at hk
      subst hk
      simp
    · rw [Function.update_noteq hks] at hk
      obtain ⟨hm, hs⟩ := h.linked k e hk
      have hne : e ≠ p.next := fun heq => hn (heq ▸ hm)
      rw [Function.update_noteq hne]
      exact ⟨Or.inl hm, hs⟩

theorem SessionUpdate_WF (p : Provider) (now : Int) (sid : String) (h : WF p) :
    WF (SessionUpdate p now sid).1 := by
  unfold SessionUpdate
  cases hs : p.sessions sid with
  | none => exact h
  | some e =>
    obtain ⟨hm, _⟩ := h.linked sid e hs
    have hperm : (MoveToFront p.list e).Perm p.list := by
      simp only [MoveToFront, hm, if_true]
      exact (List.perm_cons_erase hm).symm
    refine ⟨hperm.nodup_iff.mpr h.nodup, ?_, ?_⟩
    · intro x hx
      exact h.alloc x (hperm.mem_iff.mp hx)
    · intro k x hk
      obtain ⟨hxm, hxs⟩ := h.linked k x hk
      refine ⟨hperm.mem_iff.mpr hxm, ?_⟩
      show (Function.update p.heap e _ x).sid = k
      by_cases hxe : x = e
      · subst hxe
        simpa using hxs
      · rw [Function.update_noteq hxe]
        exact hxs

theorem SessionDestroy_WF (p : Provider) (sid : String) (h : WF p) :
    WF (SessionDestroy p sid).1 := by
  unfold SessionDestroy
  cases hs : p.sessions sid with
  | none => exact h
  | some e =>
    refine ⟨h.nodup.erase e, ?_, ?_⟩
    · intro x hx
      exact h.alloc x (List.mem_of_mem_erase hx)
    · intro k x hk
      simp only at hk
      by_cases hks : k = sid
      · subst hks
        simp at hk
      · rw [Function.update_noteq hks] at hk
        obtain ⟨hxm, hxs⟩ := h.linked k x hk
        have hxe : x ≠ e := by
          intro heq
          subst heq
          exact hks (hxs.symm.trans (h.linked sid x hs).2)
        exact ⟨(h.nodup.mem_erase_iff).mpr ⟨hxe, hxm⟩, hxs⟩

/-! ## Helper lemmas: the sweep -/

theorem gcLoop_fuel (now maxlifetime : Int) :
    ∀ (n : Nat) (p : Provider), p.list.length ≤ n →
      gcLoop n p now maxlifetime = gcLoop p.list.length p now maxlifetime := by
  intro n
  induction n with
  | zero =>
    intro p hp
    have h0 : p.list.length = 0 := Nat.le_zero.mp hp
    rw [h0]
  | succ n ih =>
    intro p hp
    cases hb : Back p.list with
    | none =>
      have hnil : p.list = [] := List.getLast?_eq_none_iff.mp hb
      have h0 : p.list.length = 0 := by simp [hnil]
      rw [h0]
      simp only [gcLoop, hb]
    | some e =>
      have hmem : e ∈ p.list := List.mem_of_getLast?_eq_some hb
      have hlen : (gcRemove p e).list.length = p.list.length - 1 := by
        simp [gcRemove, Remove, List.length_erase_of_mem hmem]
      have hpos : 0 < p.list.length := List.length_pos_of_mem hmem
      obtain ⟨m, hm⟩ : ∃ m, p.list.length = m + 1 := ⟨p.list.length - 1, by omega⟩
      rw [hm]
      simp only [gcLoop, hb]
      by_cases hx : expired p now maxlifetime e = true
      · simp only [hx, if_true]
        have hm2 : (gcRemove p e).list.length = m := by omega
        rw [ih (gcRemove p e) (by omega), hm2]
      · simp only [hx, if_false]
        simp

theorem gcRemove_WF (p : Provider) (e : Nat) (h : WF p) : WF (gcRemove p e) := by
  refine ⟨h.nodup.erase e, ?_, ?_⟩
  · intro x hx
    exact h.alloc x (List.mem_of_mem_erase hx)
  · intro k x hk
    simp only [gcRemove] at hk
    by_cases hks : k = (p.heap e).sid
    · subst hks
      simp at hk
    · rw [Function.update_noteq hks] at hk
      obtain ⟨hxm, hxs⟩ := h.linked k x hk
      have hxe : x ≠ e := by
        intro heq
        subst heq
        exact hks hxs.symm
      exact ⟨(h.nodup.mem_erase_iff).mpr ⟨hxe, hxm⟩, hxs⟩

theorem gcLoop_WF (now maxlifetime : Int) :
    ∀ (n : Nat) (p : Provider), WF p → WF (gcLoop n p now maxlifetime) := by
  intro n
  induction n with
  | zero => intro p h; exact h
  | succ n ih =>
    intro p h
    simp only [gcLoop]
    cases hb : Back p.list with
    | none => exact h
    | some e =>
      simp only
      split
      · exact ih _ (gcRemove_WF p e h)
      · exact h

theorem SessionGC_WF (p : Provider) (now maxlifetime : Int) (h : WF p) :
    WF (SessionGC p now maxlifetime) :=
  gcLoop_WF now maxlifetime _ p h

/-- The state `SessionGC` returns is one at which the Go loop leaves: the index is
empty or its last entry fails the loop test. -/
theorem gcLoop_exit (now maxlifetime : Int) :
    ∀ (n : Nat) (p : Provider), p.list.length ≤ n →
      Back (gcLoop n p now maxlifetime).list = none ∨
      ∃ e, Back (gcLoop n p now maxlifetime).list = some e ∧
        expired (gcLoop n p now maxlifetime) now maxlifetime e = false := by
  intro n
  induction n with
  | zero =>
    intro p hp
    have hnil : p.list = [] := List.length_eq_zero.mp (Nat.le_zero.mp hp)
    left
    simp [gcLoop, Back, hnil]
  | succ n ih =>
    intro p hp
    cases hb : Back p.list with
    | none =>
      left
      simp only [gcLoop, hb]
    | some e =>
      have hmem : e ∈ p.list := List.mem_of_getLast?_eq_some hb
      by_cases hx : expired p now maxlifetime e = true
      · have hq : gcLoop (n + 1) p now maxlifetime =
            gcLoop n (gcRemove p e) now maxlifetime := by
          simp only [gcLoop, hb, hx, if_true]
        rw [hq]
        apply ih
        have hlen : (gcRemove p e).list.length = p.list.length - 1 := by
          simp [gcRemove, Remove, List.length_erase_of_mem hmem]
        omega
      · have hq : gcLoop (n + 1) p now maxlifetime = p := by
          simp [gcLoop, hb, hx]
        rw [hq]
        right
        exact ⟨e, hb, by simpa using hx⟩

/-- Every state reached by a call sequence that completes, whatever the calls,
satisfies the representation invariant. -/
theorem run_WF :
    ∀ (calls : List (Int × Call)) (p q : Provider), WF p →
      run p calls = Except.ok q → WF q := by
  intro calls
  induction calls with
  | nil =>
    intro p q h hr
    simp only [run, Except.ok.injEq] at hr
    exact hr ▸ h
  | cons c rest ih =>
    intro p q h hr
    obtain ⟨now, call⟩ := c
    cases call with
    | init sid => exact ih _ q (SessionInit_WF p now sid h) (by simpa only [run, step] using hr)
    | read sid =>
      cases hs : p.sessions sid with
      | none => simp [run, step, SessionRead, hs, Except.map] at hr
      | some e =>
        refine ih _ q (SessionInit_WF p now sid h) ?_
        simpa [run, step, SessionRead, hs, Except.map] using hr
    | update sid => exact ih _ q (SessionUpdate_WF p now sid h) (by simpa only [run, step] using hr)
    | destroy sid => exact ih _ q (SessionDestroy_WF p sid h) (by simpa only [run, step] using hr)
    | gc maxlifetime =>
      exact ih _ q (SessionGC_WF p now maxlifetime h) (by simpa only [run, step] using hr)

/-! ## Helper lemmas: one index entry per live session -/

theorem provider_one : OneEntryPerSession provider :=
  ⟨provider_WF, by simp [provider]⟩

theorem SessionInit_one (p : Provider) (now : Int) (sid : String)
    (h : OneEntryPerSession p) (hfresh : p.sessions sid = none) :
    OneEntryPerSession (SessionInit p now sid).1 := by
  refine ⟨SessionInit_WF p now sid h.wf, ?_⟩
  intro e he
  simp only [SessionInit, PushBack, List.mem_append, List.mem_singleton] at he ⊢
  rcases he with he | he
  · have hne : e ≠ p.next := fun heq => Nat.lt_irrefl _ (heq ▸ h.wf.alloc e he)
    rw [Function.update_noteq hne]
    have hm := h.mapped e he
    have hks : (p.heap e).sid ≠ sid := by
      intro heq
      rw [heq, hfresh] at hm
      exact Option.noConfusion hm
    rw [Function.update_noteq hks]
    exact hm
  · subst he
    rw [Function.update_same, Function.update_same]

theorem SessionUpdate_one (p : Provider) (now : Int) (sid : String)
    (h : OneEntryPerSession p) : OneEntryPerSession (SessionUpdate p now sid).1 := by
  refine ⟨SessionUpdate_WF p now sid h.wf, ?_⟩
  unfold SessionUpdate
  cases hs : p.sessions sid with
  | none => exact h.mapped
  | some e =>
    obtain ⟨hm, _⟩ := h.wf.linked sid e hs
    intro x hx
    have hxm : x ∈ p.list := by
      simp only [MoveToFront, hm, if_true] at hx
      exact (List.perm_cons_erase hm).mem_iff.mpr hx
    show p.sessions (Function.update p.heap e _ x).sid = some x
    by_cases hxe : x = e
    · subst hxe
      simpa using h.mapped x hxm
    · rw [Function.update_noteq hxe]
      exact h.mapped x hxm

theorem SessionDestroy_one (p : Provider) (sid : String)
    (h : OneEntryPerSession p) : OneEntryPerSession (SessionDestroy p sid).1 := by
  refine ⟨SessionDestroy_WF p sid h.wf, ?_⟩
  unfold SessionDestroy
  cases hs : p.sessions sid with
  | none => exact h.mapped
  | some e =>
    intro x hx
    obtain ⟨hxe, hxm⟩ := (h.wf.nodup.mem_erase_iff).mp hx
    have hm := h.mapped x hxm
    have hks : (p.heap x).sid ≠ sid := by
      intro heq
      rw [heq, hs] at hm
      exact hxe (Option.some.inj hm).symm
    show Function.update p.sessions sid none (p.heap x).sid = some x
    rw [Function.update_noteq hks]
    exact hm

theorem gcRemove_one (p : Provider) (e : Nat) (h : OneEntryPerSession p)
    (he : e ∈ p.list) : OneEntryPerSession (gcRemove p e) := by
  refine ⟨gcRemove_WF p e h.wf, ?_⟩
  intro x hx
  obtain ⟨hxe, hxm⟩ := (h.wf.nodup.mem_erase_iff).mp hx
  have hm := h.mapped x hxm
  have hks : (p.heap x).sid ≠ (p.heap e).sid := by
    intro heq
    rw [heq, h.mapped e he] at hm
    exact hxe (Option.some.inj hm).symm
  show Function.update p.sessions (p.heap e).sid none (p.heap x).sid = some x
  rw [Function.update_noteq hks]
  exact hm

theorem gcLoop_one (now maxlifetime : Int) :
    ∀ (n : Nat) (p : Provider), OneEntryPerSession p →
      OneEntryPerSession (gcLoop n p now maxlifetime) := by
  intro n
  induction n with
  | zero => intro p h; exact h
  | succ n ih =>
    intro p h
    simp only [gcLoop]
    cases hb : Back p.list with
    | none => exact h
    | some e =>
      simp only
      split
      · exact ih _ (gcRemove_one p e h (List.mem_of_getLast?_eq_some hb))
      · exact h

theorem SessionGC_one (p : Provider) (now maxlifetime : Int) (h : OneEntryPerSession p) :
    OneEntryPerSession (SessionGC p now maxlifetime) :=
  gcLoop_one now maxlifetime _ p h

/-- On a sequence in which later entries satisfy `P` whenever earlier ones do,
dropping the trailing run of `P` is the same as dropping every entry with `P`. -/
theorem rdropWhile_eq_filter (P : Nat → Bool) :
    ∀ l : List Nat, l.Pairwise (fun a b => P a = true → P b = true) →
      l.rdropWhile P = l.filter (fun a => !P a) := by
  intro l
  induction l using List.reverseRecOn with
  | nil => intro _; simp
  | append_singleton l x ih =>
    intro h
    obtain ⟨hl, _, hlx⟩ := List.pairwise_append.mp h
    by_cases hx : P x = true
    · rw [List.rdropWhile_concat_pos _ _ _ hx, ih hl]
      simp [hx]
    · rw [List.rdropWhile_concat_neg _ _ _ hx]
      have hall : ∀ a ∈ l, (!P a) = true := by
        intro a ha
        cases hpa : P a with
        | false => rfl
        | true => exact absurd (hlx a ha x (by simp) hpa) hx
      simp only [List.filter_append, List.filter_eq_self.mpr hall]
      simp [hx]

/-- What the loop of `SessionGC` computes on a state with one entry per live
session: the heap is untouched, the trailing run of expired entries is unlinked,
and a key stays mapped exactly when its element is still linked. -/
theorem gcLoop_spec (now maxlifetime : Int) :
    ∀ (n : Nat) (p : Provider), OneEntryPerSession p → p.list.length ≤ n →
      (gcLoop n p now maxlifetime).heap = p.heap ∧
      (gcLoop n p now maxlifetime).next = p.next ∧
      (gcLoop n p now maxlifetime).list = p.list.rdropWhile (expired p now maxlifetime) ∧
      ∀ k e, p.sessions k = some e →
        (gcLoop n p now maxlifetime).sessions k =
          if e ∈ (gcLoop n p now maxlifetime).list then some e else none := by
  intro n
  induction n with
  | zero =>
    intro p h hlen
    have hnil : p.list = [] := List.length_eq_zero.mp (Nat.le_zero.mp hlen)
    refine ⟨rfl, rfl, by simp [gcLoop, hnil], ?_⟩
    intro k e hk
    have := (h.wf.linked k e hk).1
    rw [hnil] at this
    exact absurd this (List.not_mem_nil e)
  | succ n ih =>
    intro p h hlen
    cases hb : Back p.list with
    | none =>
      have hnil : p.list = [] := List.getLast?_eq_none_iff.mp hb
      have hq : gcLoop (n + 1) p now maxlifetime = p := by simp only [gcLoop, hb]
      rw [hq]
      refine ⟨rfl, rfl, by simp [hnil], ?_⟩
      intro k e hk
      simp [hk, (h.wf.linked k e hk).1]
    | some e =>
      obtain ⟨l, hl⟩ := List.getLast?_eq_some_iff.mp hb
      have hmem : e ∈ p.list := List.mem_of_getLast?_eq_some hb
      have hnd : (l ++ [e]).Nodup := hl ▸ h.wf.nodup
      have hel : e ∉ l := by
        intro hin
        have := (List.nodup_append.mp hnd).2.2
        exact this hin (by simp)
      have herase : (gcRemove p e).list = l := by
        simp only [gcRemove, Remove, hl]
        rw [List.erase_append_right _ hel]
        simp
      by_cases hx : expired p now maxlifetime e = true
      · have hq : gcLoop (n + 1) p now maxlifetime =
            gcLoop n (gcRemove p e) now maxlifetime := by
          simp only [gcLoop, hb, hx, if_true]
        rw [hq]
        have hlen2 : (gcRemove p e).list.length ≤ n := by
          rw [herase]
          rw [hl] at hlen
          simp at hlen
          exact hlen
        obtain ⟨h1, h2, h3, h4⟩ := ih (gcRemove p e) (gcRemove_one p e h hmem) hlen2
        have hexp : expired (gcRemove p e) now maxlifetime = expired p now maxlifetime := rfl
        rw [herase, hexp] at h3
        refine ⟨h1, h2, ?_, ?_⟩
        · rw [h3, hl, List.rdropWhile_concat_pos _ _ _ hx]
        · intro k x hk
          have hsub : ∀ y, y ∈ (gcLoop n (gcRemove p e) now maxlifetime).list → y ∈ l := by
            intro y hy
            rw [h3] at hy
            exact ( List.rdropWhile_prefix (expired p now maxlifetime) l).subset hy
          by_cases hks : k = (p.heap e).sid
          · have hme := h.mapped e hmem
            rw [← hks, hk] at hme
            have hxe : x = e := Option.some.inj hme
            subst hxe
            have hnot : x ∉ (gcLoop n (gcRemove p x) now maxlifetime).list :=
              fun hy => hel (hsub x hy)
            rw [if_neg hnot]
            cases hq : (gcLoop n (gcRemove p x) now maxlifetime).sessions k with
            | none => rfl
            | some y =>
              exfalso
              have hq0 : (gcRemove p x).sessions k = none := by
                simp [gcRemove, hks]
              have hwf := gcLoop_one now maxlifetime n _ (gcRemove_one p x h hmem)
              have hy := (hwf.wf.linked k y hq)
              have hyl : y ∈ l := hsub y hy.1
              have hyp : y ∈ (gcRemove p x).list := by rw [herase]; exact hyl
              have hmy := (gcRemove_one p x h hmem).mapped y hyp
              have hsid : ((gcRemove p x).heap y).sid = k := by
                rw [← h1]
                exact hy.2
              rw [hsid, hq0] at hmy
              exact Option.noConfusion hmy
          · have hk2 : (gcRemove p e).sessions k = some x := by
              simp only [gcRemove]
              rw [Function.update_noteq hks]
              exact hk
            exact h4 k x hk2
      · have hq : gcLoop (n + 1) p now maxlifetime = p := by
          simp [gcLoop, hb, hx]
        rw [hq]
        refine ⟨rfl, rfl, ?_, ?_⟩
        · rw [hl, List.rdropWhile_concat_neg _ _ _ hx]
        · intro k x hk
          simp [hk, (h.wf.linked k x hk).1]

theorem wrapInt64_eq (x : Int) (h : InInt64 x) : wrapInt64 x = x := by
  unfold InInt64 at h
  unfold wrapInt64
  omega

theorem gcLoop_keys (now maxlifetime : Int) (n : Nat) (p : Provider)
    (h : OneEntryPerSession p) (hlen : p.list.length ≤ n) (k : String)
    (hk : p.sessions k = none) : (gcLoop n p now maxlifetime).sessions k = none := by
  obtain ⟨h1, _, h3, _⟩ := gcLoop_spec now maxlifetime n p h hlen
  cases hq : (gcLoop n p now maxlifetime).sessions k with
  | none => rfl
  | some y =>
    exfalso
    obtain ⟨hy, hs⟩ := (gcLoop_one now maxlifetime n p h).wf.linked k y hq
    rw [h3] at hy
    have hyp : y ∈ p.list := ( List.rdropWhile_prefix (expired p now maxlifetime) p.list).subset hy
    have hm := h.mapped y hyp
    rw [h1] at hs
    rw [hs, hk] at hm
    exact Option.noConfusion hm

/-! ## C1: sweep correctness -/

/-- C1 as stated does not hold: a session idle for exactly the lifetime
(`now - lastAccessed = L`, here 10 - 0 = 10) is kept by `SessionGC`, in the
identifier map and in the index, although `now - lastAccessed >= L`. -/
theorem SessionGC_keeps_boundary_session :
    OneEntryPerSession oneSession ∧ Ordered oneSession ∧
    oneSession.sessions "a" = some 0 ∧
    (10 : Int) - (oneSession.heap 0).timeAccessed ≥ 10 ∧
    (SessionGC oneSession 10 10).sessions "a" = some 0 ∧
    0 ∈ (SessionGC oneSession 10 10).list :=
  ⟨SessionInit_one provider 0 "a" provider_one rfl, by decide, by decide, by decide,
    by decide, by decide⟩

/-- C1 (amended): on a registry with one index entry per live session, ordered
front to back by non-increasing last-accessed time, and with
`lastAccessed + L` inside the `int64` range for every entry, `SessionGC(L)` run at
`now` removes from the identifier map and from the index exactly the sessions with
`now - lastAccessed > L`; every other session stays in both, no key is added, no
store is modified (payloads and timestamps are unchanged) and the index is the old
one with the removed entries left out (relative order unchanged). -/
theorem SessionGC_sweep (p : Provider) (now L : Int)
    (hone : OneEntryPerSession p) (hord : Ordered p)
    (hrange : ∀ e ∈ p.list, InInt64 ((p.heap e).timeAccessed + L)) :
    (∀ k e, p.sessions k = some e → L < now - (p.heap e).timeAccessed →
      (SessionGC p now L).sessions k = none ∧ e ∉ (SessionGC p now L).list) ∧
    (∀ k e, p.sessions k = some e → ¬ L < now - (p.heap e).timeAccessed →
      (SessionGC p now L).sessions k = some e ∧ e ∈ (SessionGC p now L).list) ∧
    (∀ k, p.sessions k = none → (SessionGC p now L).sessions k = none) ∧
    (SessionGC p now L).heap = p.heap ∧
    (SessionGC p now L).list =
      p.list.filter (fun e => decide (¬ L < now - (p.heap e).timeAccessed)) := by
  obtain ⟨h1, _, h3, h4⟩ := gcLoop_spec now L p.list.length p hone (Nat.le_refl _)
  have hexp : ∀ e ∈ p.list, (expired p now L e = true ↔ L < now - (p.heap e).timeAccessed) := by
    intro e he
    simp only [expired, decide_eq_true_eq, wrapInt64_eq _ (hrange e he)]
    constructor <;> intro hh <;> omega
  have hpw : p.list.Pairwise (fun a b => expired p now L a = true → expired p now L b = true) := by
    refine List.Pairwise.imp_of_mem ?_ hord
    intro a b ha hb hab hea
    rw [hexp a ha] at hea
    rw [hexp b hb]
    omega
  have hlist : (SessionGC p now L).list =
      p.list.filter (fun e => decide (¬ L < now - (p.heap e).timeAccessed)) := by
    show (gcLoop p.list.length p now L).list = _
    rw [h3, rdropWhile_eq_filter _ _ hpw]
    apply List.filter_congr
    intro e he
    by_cases hh : L < now - (p.heap e).timeAccessed
    · simp [(hexp e he).mpr hh, hh]
    · have : expired p now L e = false := by
        cases hc : expired p now L e with
        | false => rfl
        | true => exact absurd ((hexp e he).mp hc) hh
      simp [this, hh]
  have hmem : ∀ e, e ∈ (SessionGC p now L).list ↔
      e ∈ p.list ∧ ¬ L < now - (p.heap e).timeAccessed := by
    intro e
    rw [hlist]
    simp
  refine ⟨?_, ?_, ?_, h1, hlist⟩
  · intro k e hk hold
    have hnot : e ∉ (SessionGC p now L).list := fun hin => ((hmem e).mp hin).2 hold
    refine ⟨?_, hnot⟩
    have hq : (SessionGC p now L).sessions k =
        if e ∈ (SessionGC p now L).list then some e else none := h4 k e hk
    rw [if_neg hnot] at hq
    exact hq
  · intro k e hk hyoung
    have hin : e ∈ (SessionGC p now L).list :=
      (hmem e).mpr ⟨(hone.wf.linked k e hk).1, hyoung⟩
    refine ⟨?_, hin⟩
    have hq : (SessionGC p now L).sessions k =
        if e ∈ (SessionGC p now L).list then some e else none := h4 k e hk
    rw [if_pos hin] at hq
    exact hq
  · intro k hk
    exact gcLoop_keys now L p.list.length p hone (Nat.le_refl _) k hk

/-- Witness of `SessionGC_sweep`: sessions `a` (touched at 50) and `b` (touched at
20), swept at 85 with lifetime 60. -/
theorem SessionGC_sweep_witness :
    (OneEntryPerSession twoTouched ∧ Ordered twoTouched ∧
      ∀ e ∈ twoTouched.list, InInt64 ((twoTouched.heap e).timeAccessed + 60)) ∧
    ((∀ k e, twoTouched.sessions k = some e → 60 < 85 - (twoTouched.heap e).timeAccessed →
      (SessionGC twoTouched 85 60).sessions k = none ∧ e ∉ (SessionGC twoTouched 85 60).list) ∧
    (∀ k e, twoTouched.sessions k = some e → ¬ 60 < 85 - (twoTouched.heap e).timeAccessed →
      (SessionGC twoTouched 85 60).sessions k = some e ∧ e ∈ (SessionGC twoTouched 85 60).list) ∧
    (∀ k, twoTouched.sessions k = none → (SessionGC twoTouched 85 60).sessions k = none) ∧
    (SessionGC twoTouched 85 60).heap = twoTouched.heap ∧
    (SessionGC twoTouched 85 60).list =
      twoTouched.list.filter (fun e => decide (¬ 60 < 85 - (twoTouched.heap e).timeAccessed))) :=
  have hone : OneEntryPerSession twoTouched :=
    SessionUpdate_one _ 50 "a" (SessionUpdate_one _ 20 "b"
      (SessionInit_one _ 10 "b" (SessionInit_one provider 0 "a" provider_one rfl) (by decide)))
  ⟨⟨hone, by decide, by decide⟩,
    SessionGC_sweep twoTouched 85 60 hone (by decide) (by decide)⟩

/-! ## C2, C3: SessionRead -/

theorem SessionRead_of_live (p : Provider) (now : Int) (sid : String) (e : Nat)
    (h : p.sessions sid = some e) :
    SessionRead p now sid = Except.ok (SessionInit p now sid) := by
  simp only [SessionRead, h]

theorem SessionRead_of_unknown (p : Provider) (now : Int) (sid : String)
    (h : p.sessions sid = none) :
    SessionRead p now sid = Except.error Fault.nilDereference := by
  simp only [SessionRead, h]

/-- C2 fails on the code: in the registry holding the live session `a` (address 0,
payload `k = 1`, created at time 0), `SessionRead("a")` at time 5 does not return
that session.  It returns a newly allocated session (address 1) whose payload is
empty, remaps `a` to it, and links a second index entry; `Get("k")` on the result
is nil, and a second `SessionRead("a")` returns yet another session (address 2). -/
theorem SessionRead_live_returns_fresh_session :
    oneSessionWithPayload.sessions "a" = some 0 ∧
    (oneSessionWithPayload.heap 0).value (Iface.str "k") = some (Iface.int 1) ∧
    oneSessionWithPayload.list = [0] ∧
    SessionRead oneSessionWithPayload 5 "a" =
      Except.ok (SessionInit oneSessionWithPayload 5 "a") ∧
    (SessionInit oneSessionWithPayload 5 "a").2.1 = 1 ∧
    (SessionInit oneSessionWithPayload 5 "a").1.sessions "a" = some 1 ∧
    (SessionInit oneSessionWithPayload 5 "a").1.list = [0, 1] ∧
    ((SessionInit oneSessionWithPayload 5 "a").1.heap 1).value (Iface.str "k") = none ∧
    (SessionStore.Get (SessionInit oneSessionWithPayload 5 "a").1 5 1 (Iface.str "k")).2
      = Except.ok Iface.nil ∧
    SessionRead (SessionInit oneSessionWithPayload 5 "a").1 6 "a" =
      Except.ok (SessionInit (SessionInit oneSessionWithPayload 5 "a").1 6 "a") ∧
    (SessionInit (SessionInit oneSessionWithPayload 5 "a").1 6 "a").2.1 = 2 :=
  ⟨by decide, by decide, by decide, rfl, rfl, by decide, by decide, by decide, rfl,
    rfl, rfl⟩

/-- C3 fails on the code: on the empty registry, where `a` is not a key of the
identifier map, `SessionRead("a")` dereferences the nil element and faults; no
session is returned and nothing is created. -/
theorem SessionRead_unknown_faults :
    provider.sessions "a" = none ∧
    SessionRead provider 0 "a" = Except.error Fault.nilDereference :=
  ⟨rfl, rfl⟩

/-! ## C4: SessionInit on a live identifier -/

/-- C4 as stated does not hold: with `a` live (address 0, created at time 0),
`SessionInit("a")` at time 5 returns another session (address 1, last-accessed 5),
remaps `a` to it and links a second index entry. -/
theorem SessionInit_live_not_idempotent :
    oneSession.sessions "a" = some 0 ∧
    oneSession.list = [0] ∧
    (SessionInit oneSession 5 "a").2.1 ≠ 0 ∧
    ((SessionInit oneSession 5 "a").1.heap (SessionInit oneSession 5 "a").2.1).timeAccessed
      ≠ (oneSession.heap 0).timeAccessed ∧
    (SessionInit oneSession 5 "a").1.sessions "a" ≠ oneSession.sessions "a" ∧
    (SessionInit oneSession 5 "a").1.list = [0, 1] :=
  ⟨by decide, by decide, by decide, by decide, by decide, by decide⟩

/-- C4 (amended): when `id` is already mapped to the session `e`, `SessionInit(id)`
returns, with a nil error, a newly allocated session different from `e`, with sid
`id`, an empty payload and last-accessed time `now`; afterwards `id` is mapped to
the new session, every other key is mapped as before, the record of `e` and of every
other existing session is unchanged, and the index has one entry more: the previous
entries (the one of `e` included) in their previous order, and the new one. -/
theorem SessionInit_live (p : Provider) (now : Int) (id : String) (e : Nat)
    (hwf : WF p) (hlive : p.sessions id = some e) :
    (SessionInit p now id).2.2 = none ∧
    (SessionInit p now id).2.1 ≠ e ∧
    ((SessionInit p now id).1.heap (SessionInit p now id).2.1).sid = id ∧
    ((SessionInit p now id).1.heap (SessionInit p now id).2.1).value = emptyValue ∧
    ((SessionInit p now id).1.heap (SessionInit p now id).2.1).timeAccessed = now ∧
    (SessionInit p now id).1.sessions id = some (SessionInit p now id).2.1 ∧
    (∀ k, k ≠ id → (SessionInit p now id).1.sessions k = p.sessions k) ∧
    (∀ x, x ∈ p.list → (SessionInit p now id).1.heap x = p.heap x) ∧
    e ∈ (SessionInit p now id).1.list ∧
    (SessionInit p now id).2.1 ∈ (SessionInit p now id).1.list ∧
    (SessionInit p now id).2.1 ∉ p.list ∧
    (SessionInit p now id).1.list.length = p.list.length + 1 ∧
    p.list.Sublist (SessionInit p now id).1.list := by
  have hem : e ∈ p.list := (hwf.linked id e hlive).1
  have hfresh : p.next ∉ p.list := fun hm => Nat.lt_irrefl _ (hwf.alloc _ hm)
  refine ⟨rfl, ?_, ?_, ?_, ?_, ?_, ?_, ?_, ?_, ?_, hfresh, ?_, ?_⟩
  · intro heq
    have heq2 : p.next = e := heq
    rw [heq2] at hfresh
    exact hfresh hem
  · simp [SessionInit]
  · simp [SessionInit]
  · simp [SessionInit]
  · simp [SessionInit]
  · intro k hk
    simp [SessionInit, Function.update_noteq hk]
  · intro x hx
    have hne : x ≠ p.next := fun heq => hfresh (heq ▸ hx)
    simp [SessionInit, Function.update_noteq hne]
  · simp [SessionInit, PushBack, hem]
  · simp [SessionInit, PushBack]
  · simp [SessionInit, PushBack]
  · simp [SessionInit, PushBack]

/-- Witness of `SessionInit_live`: `SessionInit("a")` at time 5 with `a` live. -/
theorem SessionInit_live_witness :
    (WF oneSession ∧ oneSession.sessions "a" = some 0) ∧
    ((SessionInit oneSession 5 "a").2.2 = none ∧
    (SessionInit oneSession 5 "a").2.1 ≠ 0 ∧
    ((SessionInit oneSession 5 "a").1.heap (SessionInit oneSession 5 "a").2.1).sid = "a" ∧
    ((SessionInit oneSession 5 "a").1.heap (SessionInit oneSession 5 "a").2.1).value
      = emptyValue ∧
    ((SessionInit oneSession 5 "a").1.heap (SessionInit oneSession 5 "a").2.1).timeAccessed
      = 5 ∧
    (SessionInit oneSession 5 "a").1.sessions "a" = some (SessionInit oneSession 5 "a").2.1 ∧
    (∀ k, k ≠ "a" → (SessionInit oneSession 5 "a").1.sessions k = oneSession.sessions k) ∧
    (∀ x, x ∈ oneSession.list → (SessionInit oneSession 5 "a").1.heap x = oneSession.heap x) ∧
    0 ∈ (SessionInit oneSession 5 "a").1.list ∧
    (SessionInit oneSession 5 "a").2.1 ∈ (SessionInit oneSession 5 "a").1.list ∧
    (SessionInit oneSession 5 "a").2.1 ∉ oneSession.list ∧
    (SessionInit oneSession 5 "a").1.list.length = oneSession.list.length + 1 ∧
    oneSession.list.Sublist (SessionInit oneSession 5 "a").1.list) :=
  ⟨⟨SessionInit_WF provider 0 "a" provider_WF, by decide⟩,
    SessionInit_live oneSession 5 "a" 0 (SessionInit_WF provider 0 "a" provider_WF)
      (by decide)⟩

/-! ## C5: one index entry per live session, along call sequences -/

theorem run_one_of_initsFresh :
    ∀ (calls : List (Int × Call)) (p : Provider), OneEntryPerSession p →
      initsFresh p calls = true → ∃ q, run p calls = Except.ok q ∧ OneEntryPerSession q := by
  intro calls
  induction calls with
  | nil => intro p h _; exact ⟨p, rfl, h⟩
  | cons c rest ih =>
    intro p h hf
    obtain ⟨now, call⟩ := c
    cases call with
    | init sid =>
      simp only [initsFresh, Bool.and_eq_true, Option.isNone_iff_eq_none] at hf
      simpa only [run, step] using ih _ (SessionInit_one p now sid h hf.1) hf.2
    | read sid => simp [initsFresh] at hf
    | update sid =>
      simp only [initsFresh] at hf
      simpa only [run, step] using ih _ (SessionUpdate_one p now sid h) hf
    | destroy sid =>
      simp only [initsFresh] at hf
      simpa only [run, step] using ih _ (SessionDestroy_one p sid h) hf
    | gc maxlifetime =>
      simp only [initsFresh] at hf
      simpa only [run, step] using ih _ (SessionGC_one p now maxlifetime h) hf

/-- C5 as stated does not hold: after `SessionInit("a")` followed by
`SessionInit("a")`, and likewise after `SessionInit("a")` followed by
`SessionRead("a")`, the index links two entries with sid `a` (addresses 0 and 1)
while the identifier map has the single key `a`, mapped to address 1: the entry at
address 0 is not the one its sid is mapped to. -/
theorem index_entry_duplicated :
    (∃ q, run provider [(0, Call.init "a"), (1, Call.init "a")] = Except.ok q ∧
      q.list = [0, 1] ∧ (q.heap 0).sid = "a" ∧ (q.heap 1).sid = "a" ∧
      q.sessions "a" = some 1 ∧ ¬ OneEntryPerSession q) ∧
    (∃ q, run provider [(0, Call.init "a"), (1, Call.read "a")] = Except.ok q ∧
      q.list = [0, 1] ∧ (q.heap 0).sid = "a" ∧ (q.heap 1).sid = "a" ∧
      q.sessions "a" = some 1 ∧ ¬ OneEntryPerSession q) :=
  ⟨⟨_, rfl, by decide, by decide, by decide, by decide,
      fun h => absurd (h.mapped 0 (by decide)) (by decide)⟩,
    ⟨_, rfl, by decide, by decide, by decide, by decide,
      fun h => absurd (h.mapped 0 (by decide)) (by decide)⟩⟩

/-- C5 (amended): every call sequence from the empty registry that makes no
`SessionRead` and makes each `SessionInit` with an identifier that is not live at
that moment (any `SessionUpdate`, `SessionDestroy` and `SessionGC` calls, any ids,
any clock) completes, and in the state it reaches the index contains exactly one
entry per live session: no element is linked twice, each map key points to a linked
entry carrying that sid, and every linked entry is the one its sid is mapped to. -/
theorem one_entry_per_session_reachable (calls : List (Int × Call))
    (h : initsFresh provider calls = true) :
    ∃ q, run provider calls = Except.ok q ∧
      q.list.Nodup ∧
      (∀ k e, q.sessions k = some e → e ∈ q.list ∧ (q.heap e).sid = k) ∧
      (∀ e ∈ q.list, q.sessions (q.heap e).sid = some e) := by
  obtain ⟨q, hq, hone⟩ := run_one_of_initsFresh calls provider provider_one h
  exact ⟨q, hq, hone.wf.nodup, hone.wf.linked, hone.mapped⟩

/-- Witness of `one_entry_per_session_reachable`: two sessions created, one
touched, a sweep and a destroy. -/
theorem one_entry_per_session_reachable_witness :
    initsFresh provider [(0, Call.init "a"), (10, Call.init "b"), (50, Call.update "a"),
      (65, Call.gc 60), (70, Call.destroy "b"), (70, Call.destroy "a")] = true ∧
    ∃ q, run provider [(0, Call.init "a"), (10, Call.init "b"), (50, Call.update "a"),
        (65, Call.gc 60), (70, Call.destroy "b"), (70, Call.destroy "a")] = Except.ok q ∧
      q.list.Nodup ∧
      (∀ k e, q.sessions k = some e → e ∈ q.list ∧ (q.heap e).sid = k) ∧
      (∀ e ∈ q.list, q.sessions (q.heap e).sid = some e) :=
  ⟨by decide, one_entry_per_session_reachable _ (by decide)⟩

/-! ## C6: recency ordering under SessionUpdate -/

theorem SessionUpdate_ordered (p : Provider) (now : Int) (sid : String)
    (hnd : p.list.Nodup) (hord : Ordered p)
    (hlate : ∀ e ∈ p.list, (p.heap e).timeAccessed ≤ now) :
    (SessionUpdate p now sid).1.list.Nodup ∧ Ordered (SessionUpdate p now sid).1 ∧
    ∀ e ∈ (SessionUpdate p now sid).1.list,
      ((SessionUpdate p now sid).1.heap e).timeAccessed ≤ now := by
  unfold SessionUpdate
  cases hs : p.sessions sid with
  | none => exact ⟨hnd, hord, hlate⟩
  | some e =>
    have hheap : ∀ x, x ≠ e →
        Function.update p.heap e { p.heap e with timeAccessed := now } x = p.heap x :=
      fun x hx => Function.update_noteq hx _ _
    have hsame : (Function.update p.heap e { p.heap e with timeAccessed := now } e).timeAccessed
        = now := by rw [Function.update_same]
    by_cases hm : e ∈ p.list
    · have hlist : MoveToFront p.list e = e :: p.list.erase e := by simp [MoveToFront, hm]
      have hne : ∀ x ∈ p.list.erase e, x ≠ e := fun x hx => (hnd.mem_erase_iff.mp hx).1
      have hin : ∀ x ∈ p.list.erase e, x ∈ p.list := fun x hx => List.mem_of_mem_erase hx
      simp only [Ordered, hlist]
      refine ⟨?_, ?_, ?_⟩
      · exact List.nodup_cons.mpr ⟨fun hx => hne e hx rfl, hnd.erase e⟩
      · refine List.pairwise_cons.mpr ⟨?_, ?_⟩
        · intro x hx
          rw [hsame, hheap x (hne x hx)]
          exact hlate x (hin x hx)
        · refine List.Pairwise.imp_of_mem ?_ (List.Pairwise.sublist (List.erase_sublist e p.list) hord)
          intro a b ha hb hab
          rw [hheap a (hne a ha), hheap b (hne b hb)]
          exact hab
      · intro x hx
        rcases List.mem_cons.mp hx with hxe | hxe
        · rw [hxe, hsame]
        · rw [hheap x (hne x hxe)]
          exact hlate x (hin x hxe)
    · have hlist : MoveToFront p.list e = p.list := by simp [MoveToFront, hm]
      have hne : ∀ x ∈ p.list, x ≠ e := fun x hx heq => hm (heq ▸ hx)
      simp only [Ordered, hlist]
      refine ⟨hnd, ?_, ?_⟩
      · refine List.Pairwise.imp_of_mem ?_ hord
        intro a b ha hb hab
        rw [hheap a (hne a ha), hheap b (hne b hb)]
        exact hab
      · intro x hx
        rw [hheap x (hne x hx)]
        exact hlate x hx

theorem touchAll_ordered :
    ∀ (calls : List (Int × String)) (p : Provider), p.list.Nodup → Ordered p →
      calls.Pairwise (fun a b => a.1 ≤ b.1) →
      (∀ c ∈ calls, ∀ e ∈ p.list, (p.heap e).timeAccessed ≤ c.1) →
      Ordered (touchAll p calls) := by
  intro calls
  induction calls with
  | nil => intro p _ hord _ _; exact hord
  | cons c rest ih =>
    intro p hnd hord hmono hlate
    obtain ⟨h1, h2, h3⟩ := SessionUpdate_ordered p c.1 c.2 hnd hord
      (hlate c (List.mem_cons_self _ _))
    obtain ⟨hc, hrest⟩ := List.pairwise_cons.mp hmono
    show Ordered (touchAll (SessionUpdate p c.1 c.2).1 rest)
    refine ih _ h1 h2 hrest ?_
    intro d hd e he
    exact le_trans (h3 e he) (hc d hd)

/-- C6: from a registry whose index (an element linked at most once) is, front to
back, in non-increasing order of last-accessed time, after every call of any
sequence of `SessionUpdate(id)` calls (any ids, live or not) made at non-decreasing
times that are not earlier than any timestamp stored in the index, the index is
again in non-increasing order of last-accessed time. -/
theorem SessionUpdate_keeps_order (p : Provider) (calls : List (Int × String))
    (hnd : p.list.Nodup) (hord : Ordered p)
    (hmono : calls.Pairwise (fun a b => a.1 ≤ b.1))
    (hlate : ∀ c ∈ calls, ∀ e ∈ p.list, (p.heap e).timeAccessed ≤ c.1) :
    ∀ n, Ordered (touchAll p (calls.take n)) := by
  intro n
  refine touchAll_ordered _ p hnd hord (List.Pairwise.sublist (List.take_sublist n calls) hmono) ?_
  intro c hc
  exact hlate c (List.mem_of_mem_take hc)

/-- Witness of `SessionUpdate_keeps_order`: three touches (one of an unknown id)
on the ordered two-session registry. -/
theorem SessionUpdate_keeps_order_witness :
    (twoTouched.list.Nodup ∧ Ordered twoTouched ∧
      [((60 : Int), "b"), (60, "zz"), (70, "a")].Pairwise (fun a b => a.1 ≤ b.1) ∧
      ∀ c ∈ [((60 : Int), "b"), (60, "zz"), (70, "a")], ∀ e ∈ twoTouched.list,
        (twoTouched.heap e).timeAccessed ≤ c.1) ∧
    ∀ n, Ordered (touchAll twoTouched ([((60 : Int), "b"), (60, "zz"), (70, "a")].take n)) :=
  ⟨⟨by decide, by decide, by decide, by decide⟩,
    SessionUpdate_keeps_order twoTouched _ (by decide) (by decide) (by decide) (by decide)⟩

/-! ## C7, C8: SessionInit -/

theorem SessionInit_list (p : Provider) (now : Int) (sid : String) :
    (SessionInit p now sid).1.list = p.list ++ [(SessionInit p now sid).2.1] := rfl

/-- C7 fails on the code: `SessionInit` links the new session with `PushBack`.
With `a` live (address 0, last-accessed 0), `SessionInit("b")` at time 10 leaves `a`
at the front of the index and puts the new session (address 1) at the back, so the
index, ordered before the call, is no longer in non-increasing timestamp order. -/
theorem SessionInit_links_at_back :
    oneSession.list = [0] ∧ (oneSession.heap 0).sid = "a" ∧ Ordered oneSession ∧
    (oneSession.heap 0).timeAccessed ≤ 10 ∧ oneSession.sessions "b" = none ∧
    (SessionInit oneSession 10 "b").2.1 = 1 ∧
    (SessionInit oneSession 10 "b").1.list = [0, 1] ∧
    (SessionInit oneSession 10 "b").1.list.head? = some 0 ∧
    Back (SessionInit oneSession 10 "b").1.list = some 1 ∧
    ((SessionInit oneSession 10 "b").1.heap 0).timeAccessed = 0 ∧
    ((SessionInit oneSession 10 "b").1.heap 1).timeAccessed = 10 ∧
    ¬ Ordered (SessionInit oneSession 10 "b").1 :=
  ⟨by decide, by decide, by decide, by decide, by decide, by decide, by decide, by decide,
    by decide, by decide, by decide, by decide⟩

theorem SessionUpdate_record (p : Provider) (now : Int) (sid : String) (x : Nat) :
    ((SessionUpdate p now sid).1.heap x).value = (p.heap x).value ∧
    ((SessionUpdate p now sid).1.heap x).sid = (p.heap x).sid := by
  unfold SessionUpdate
  cases h : p.sessions sid with
  | none => exact ⟨rfl, rfl⟩
  | some e =>
    by_cases hx : x = e
    · subst hx
      simp
    · simp [Function.update_noteq hx]

theorem Get_result (p : Provider) (t : Int) (s : Nat) (k : Iface) (hk : k.hashable = true) :
    (SessionStore.Get p t s k).2 =
      Except.ok ((mapLookup (p.heap s).value k).getD Iface.nil) := by
  have h := (SessionUpdate_record p t (p.heap s).sid s).1
  simp only [SessionStore.Get, hk, if_true]
  rw [h]
  cases mapLookup (p.heap s).value k <;> rfl

theorem Get_state (p : Provider) (t : Int) (s : Nat) (k : Iface) :
    (SessionStore.Get p t s k).1 = (SessionUpdate p t (p.heap s).sid).1 := by
  simp only [SessionStore.Get]
  split
  · split <;> rfl
  · rfl

/-- C8 as stated does not hold: on the session that `SessionInit("a")` has just
created on the empty registry, `Get` with a key of an unhashable type (here a slice)
does not return nil: the map access panics. -/
theorem Get_unhashable_key_panics :
    provider.sessions "a" = none ∧
    ((SessionInit provider 7 "a").1.heap (SessionInit provider 7 "a").2.1).value = emptyValue ∧
    (SessionStore.Get (SessionInit provider 7 "a").1 8 (SessionInit provider 7 "a").2.1
      (Iface.slice [1])).2 = Except.error Fault.unhashableKey :=
  ⟨rfl, rfl, rfl⟩

/-- C8 (amended): for an id that is not a key of the identifier map, `SessionInit(id)`
at time `now` returns `(s, nil)` where `s.SessionID() = id`, the payload of `s` is
empty (`Get(k)` is nil for every key `k` of a hashable type) and its last-accessed
time is `now`; afterwards the identifier map has `id` mapped to an index entry
holding `s`, and every other key is mapped as before. -/
theorem SessionInit_creates (p : Provider) (now : Int) (id : String)
    (_hnew : p.sessions id = none) :
    (SessionInit p now id).2.2 = none ∧
    SessionStore.SessionID (SessionInit p now id).1 (SessionInit p now id).2.1 = id ∧
    ((SessionInit p now id).1.heap (SessionInit p now id).2.1).value = emptyValue ∧
    (∀ k t, k.hashable = true →
      (SessionStore.Get (SessionInit p now id).1 t (SessionInit p now id).2.1 k).2
        = Except.ok Iface.nil) ∧
    ((SessionInit p now id).1.heap (SessionInit p now id).2.1).timeAccessed = now ∧
    (SessionInit p now id).1.sessions id = some (SessionInit p now id).2.1 ∧
    (SessionInit p now id).2.1 ∈ (SessionInit p now id).1.list ∧
    (∀ k, k ≠ id → (SessionInit p now id).1.sessions k = p.sessions k) := by
  refine ⟨rfl, ?_, ?_, ?_, ?_, ?_, ?_, ?_⟩
  · simp [SessionStore.SessionID, SessionInit]
  · simp [SessionInit]
  · intro k t hk
    rw [Get_result _ _ _ _ hk]
    simp [SessionInit, emptyValue, mapLookup]
  · simp [SessionInit]
  · simp [SessionInit]
  · simp [SessionInit, PushBack]
  · intro k hk
    simp [SessionInit, Function.update_noteq hk]

/-- Witness of `SessionInit_creates`: `SessionInit("a")` at time 7 on the empty registry. -/
theorem SessionInit_creates_witness :
    provider.sessions "a" = none ∧
    ((SessionInit provider 7 "a").2.2 = none ∧
    SessionStore.SessionID (SessionInit provider 7 "a").1 (SessionInit provider 7 "a").2.1
      = "a" ∧
    ((SessionInit provider 7 "a").1.heap (SessionInit provider 7 "a").2.1).value
      = emptyValue ∧
    (∀ k t, k.hashable = true →
      (SessionStore.Get (SessionInit provider 7 "a").1 t
        (SessionInit provider 7 "a").2.1 k).2 = Except.ok Iface.nil) ∧
    ((SessionInit provider 7 "a").1.heap (SessionInit provider 7 "a").2.1).timeAccessed = 7 ∧
    (SessionInit provider 7 "a").1.sessions "a" = some (SessionInit provider 7 "a").2.1 ∧
    (SessionInit provider 7 "a").2.1 ∈ (SessionInit provider 7 "a").1.list ∧
    (∀ k, k ≠ "a" → (SessionInit provider 7 "a").1.sessions k = provider.sessions k)) :=
  ⟨rfl, SessionInit_creates provider 7 "a" rfl⟩

/-! ## C9: SessionUpdate -/

/-- C9: `SessionUpdate(id)` at time `now` always returns a nil error.  If `id` is
live, with entry `e`, then afterwards the last-accessed time of `e` is `now` (its sid
and payload are unchanged), `e` is at the head of the index followed by the other
entries in their previous order, every other store is unchanged and the identifier
map is unchanged.  If `id` is not live the whole state is unchanged. -/
theorem SessionUpdate_touch (p : Provider) (now : Int) (id : String) (hwf : WF p) :
    (SessionUpdate p now id).2 = none ∧
    (∀ e, p.sessions id = some e →
      ((SessionUpdate p now id).1.heap e).timeAccessed = now ∧
      ((SessionUpdate p now id).1.heap e).sid = (p.heap e).sid ∧
      ((SessionUpdate p now id).1.heap e).value = (p.heap e).value ∧
      (SessionUpdate p now id).1.list = e :: p.list.erase e ∧
      (∀ x, x ≠ e → (SessionUpdate p now id).1.heap x = p.heap x) ∧
      (SessionUpdate p now id).1.sessions = p.sessions) ∧
    (p.sessions id = none → (SessionUpdate p now id).1 = p) := by
  refine ⟨?_, ?_, ?_⟩
  · unfold SessionUpdate
    cases p.sessions id <;> rfl
  · intro e he
    have hm : e ∈ p.list := (hwf.linked id e he).1
    simp only [SessionUpdate, he, MoveToFront, hm, if_true, Function.update_same]
    refine ⟨trivial, trivial, trivial, trivial, ?_, trivial⟩
    intro x hx
    exact Function.update_noteq hx _ _
  · intro hn
    simp only [SessionUpdate, hn]

/-- Witness of `SessionUpdate_touch`: touching `b` at time 60 in the registry whose
index is `a`, `b`. -/
theorem SessionUpdate_touch_witness :
    WF twoTouched ∧
    ((SessionUpdate twoTouched 60 "b").2 = none ∧
    (∀ e, twoTouched.sessions "b" = some e →
      ((SessionUpdate twoTouched 60 "b").1.heap e).timeAccessed = 60 ∧
      ((SessionUpdate twoTouched 60 "b").1.heap e).sid = (twoTouched.heap e).sid ∧
      ((SessionUpdate twoTouched 60 "b").1.heap e).value = (twoTouched.heap e).value ∧
      (SessionUpdate twoTouched 60 "b").1.list = e :: twoTouched.list.erase e ∧
      (∀ x, x ≠ e → (SessionUpdate twoTouched 60 "b").1.heap x = twoTouched.heap x) ∧
      (SessionUpdate twoTouched 60 "b").1.sessions = twoTouched.sessions) ∧
    (twoTouched.sessions "b" = none → (SessionUpdate twoTouched 60 "b").1 = twoTouched)) :=
  have hwf : WF twoTouched :=
    SessionUpdate_WF _ 50 "a" (SessionUpdate_WF _ 20 "b"
      (SessionInit_WF _ 10 "b" (SessionInit_WF provider 0 "a" provider_WF)))
  ⟨hwf, SessionUpdate_touch twoTouched 60 "b" hwf⟩

/-! ## C10: SessionDestroy -/

/-- C10: on a registry with one index entry per live session and for a live `id`
(entry `e`), `SessionDestroy(id)` returns nil; afterwards the identifier map has no
key `id` and the index has no entry with sid `id`, every other key is mapped as
before, every other entry is still linked, no store is modified, and the index is the
old one without the entry of `id` (relative order unchanged). -/
theorem SessionDestroy_removes (p : Provider) (id : String) (e : Nat)
    (hone : OneEntryPerSession p) (hlive : p.sessions id = some e) :
    (SessionDestroy p id).2 = none ∧
    (SessionDestroy p id).1.sessions id = none ∧
    (∀ x ∈ (SessionDestroy p id).1.list, ((SessionDestroy p id).1.heap x).sid ≠ id) ∧
    (∀ k, k ≠ id → (SessionDestroy p id).1.sessions k = p.sessions k) ∧
    (∀ x ∈ p.list, x ≠ e → x ∈ (SessionDestroy p id).1.list) ∧
    (SessionDestroy p id).1.heap = p.heap ∧
    (SessionDestroy p id).1.list = p.list.filter (fun x => decide ((p.heap x).sid ≠ id)) := by
  have hsid : ∀ x ∈ p.list, (x ≠ e ↔ (p.heap x).sid ≠ id) := by
    intro x hx
    constructor
    · intro hne heq
      have hm := hone.mapped x hx
      rw [heq, hlive] at hm
      exact hne (Option.some.inj hm).symm
    · intro hne heq
      exact hne (heq ▸ (hone.wf.linked id e hlive).2)
  have hlist : (SessionDestroy p id).1.list = p.list.erase e := by
    simp only [SessionDestroy, hlive, Remove]
  refine ⟨?_, ?_, ?_, ?_, ?_, ?_, ?_⟩
  · simp only [SessionDestroy, hlive]
  · simp only [SessionDestroy, hlive, Function.update_same]
  · intro x hx
    rw [hlist] at hx
    obtain ⟨hne, hxm⟩ := hone.wf.nodup.mem_erase_iff.mp hx
    have : (SessionDestroy p id).1.heap = p.heap := by simp only [SessionDestroy, hlive]
    rw [this]
    exact (hsid x hxm).mp hne
  · intro k hk
    simp only [SessionDestroy, hlive]
    exact Function.update_noteq hk _ _
  · intro x hx hne
    rw [hlist]
    exact hone.wf.nodup.mem_erase_iff.mpr ⟨hne, hx⟩
  · simp only [SessionDestroy, hlive]
  · rw [hlist, hone.wf.nodup.erase_eq_filter e]
    apply List.filter_congr
    intro x hx
    by_cases hxe : x = e
    · have : (p.heap x).sid = id := by
        by_contra hc
        exact ((hsid x hx).mpr hc) hxe
      subst hxe
      simp [this]
    · simp [hxe, (hsid x hx).mp hxe]

/-- Witness of `SessionDestroy_removes`: destroying `b` in the registry whose index
is `a`, `b`. -/
theorem SessionDestroy_removes_witness :
    (OneEntryPerSession twoTouched ∧ twoTouched.sessions "b" = some 1) ∧
    ((SessionDestroy twoTouched "b").2 = none ∧
    (SessionDestroy twoTouched "b").1.sessions "b" = none ∧
    (∀ x ∈ (SessionDestroy twoTouched "b").1.list,
      ((SessionDestroy twoTouched "b").1.heap x).sid ≠ "b") ∧
    (∀ k, k ≠ "b" → (SessionDestroy twoTouched "b").1.sessions k = twoTouched.sessions k) ∧
    (∀ x ∈ twoTouched.list, x ≠ 1 → x ∈ (SessionDestroy twoTouched "b").1.list) ∧
    (SessionDestroy twoTouched "b").1.heap = twoTouched.heap ∧
    (SessionDestroy twoTouched "b").1.list =
      twoTouched.list.filter (fun x => decide ((twoTouched.heap x).sid ≠ "b"))) :=
  have hone : OneEntryPerSession twoTouched :=
    SessionUpdate_one _ 50 "a" (SessionUpdate_one _ 20 "b"
      (SessionInit_one _ 10 "b" (SessionInit_one provider 0 "a" provider_one rfl) (by decide)))
  ⟨⟨hone, by decide⟩, SessionDestroy_removes twoTouched "b" 1 hone (by decide)⟩

/-! ## C11: SessionDestroy twice -/

/-- C11: for every registry state and every id, live or not, `SessionDestroy(id)`
returns nil; a second `SessionDestroy(id)` right after the first returns nil and
leaves exactly the state the first call left; and when `id` is not a key of the
identifier map a single call leaves the state unchanged. -/
theorem SessionDestroy_idempotent (p : Provider) (id : String) :
    (SessionDestroy p id).2 = none ∧
    (SessionDestroy (SessionDestroy p id).1 id).2 = none ∧
    (SessionDestroy (SessionDestroy p id).1 id).1 = (SessionDestroy p id).1 ∧
    (p.sessions id = none → (SessionDestroy p id).1 = p) := by
  cases h : p.sessions id with
  | none => simp [SessionDestroy, h]
  | some e => simp [SessionDestroy, h]

/-! ## C12: the concrete sweep scenario -/

/-- C12 as stated does not hold: after `SessionInit("A")` at 0, `SessionInit("B")`
at 10, `SessionUpdate("A")` at 50 and `SessionGC(60)` at 65, `B` is still a key of
the identifier map and its entry (address 1) is still in the index. -/
theorem scenario_B_not_evicted :
    ∃ q, run provider [(0, Call.init "A"), (10, Call.init "B"), (50, Call.update "A"),
        (65, Call.gc 60)] = Except.ok q ∧
      q.sessions "B" = some 1 ∧ 1 ∈ q.list ∧ (q.heap 1).sid = "B" :=
  ⟨_, rfl, by decide, by decide, by decide⟩

/-- C12 (amended): after `SessionInit("A")` at 0, `SessionInit("B")` at 10,
`SessionUpdate("A")` at 50 and `SessionGC(60)` at 65, both sessions remain live: `B`,
last accessed at 10, has been idle for 55 seconds, less than the lifetime, and `A`,
last accessed at 50, for 15 seconds; the sweep removes nothing. -/
theorem scenario_both_remain :
    ∃ q, run provider [(0, Call.init "A"), (10, Call.init "B"), (50, Call.update "A"),
        (65, Call.gc 60)] = Except.ok q ∧
      q.sessions "A" = some 0 ∧ q.sessions "B" = some 1 ∧ q.list = [0, 1] ∧
      (q.heap 0).sid = "A" ∧ (q.heap 0).timeAccessed = 50 ∧
      (q.heap 1).sid = "B" ∧ (q.heap 1).timeAccessed = 10 ∧
      (65 : Int) - (q.heap 1).timeAccessed < 60 :=
  ⟨_, rfl, by decide, by decide, by decide, by decide, by decide, by decide, by decide,
    by decide⟩

/-! ## C13: the payload of a session -/

theorem Set_record (p : Provider) (t : Int) (s : Nat) (k v : Iface) (hk : k.hashable = true) :
    ((SessionStore.Set p t s k v).1.heap s).value = mapStore (p.heap s).value k v ∧
    ((SessionStore.Set p t s k v).1.heap s).sid = (p.heap s).sid ∧
    (SessionStore.Set p t s k v).2 = Except.ok none := by
  simp only [SessionStore.Set, hk, if_true]
  refine ⟨?_, ?_, trivial⟩
  · rw [(SessionUpdate_record _ _ _ s).1]
    simp
  · rw [(SessionUpdate_record _ _ _ s).2]
    simp

theorem Delete_record (p : Provider) (t : Int) (s : Nat) (k : Iface) (hk : k.hashable = true) :
    ((SessionStore.Delete p t s k).1.heap s).value = mapDelete (p.heap s).value k ∧
    ((SessionStore.Delete p t s k).1.heap s).sid = (p.heap s).sid ∧
    (SessionStore.Delete p t s k).2 = Except.ok none := by
  simp only [SessionStore.Delete, hk, if_true]
  refine ⟨?_, ?_, trivial⟩
  · rw [(SessionUpdate_record _ _ _ s).1]
    simp
  · rw [(SessionUpdate_record _ _ _ s).2]
    simp

theorem mapLookup_mapStore (m : Iface → Option Iface) (k k2 v : Iface) :
    mapLookup (mapStore m k v) k2 =
      if k2 = k ∧ k ≠ Iface.nan then some v else mapLookup m k2 := by
  cases k <;> cases k2 <;>
    simp [mapLookup, mapStore, Iface.selfEqual, Function.update_apply]

theorem mapLookup_mapDelete (m : Iface → Option Iface) (k k2 : Iface) :
    mapLookup (mapDelete m k) k2 = if k2 = k then none else mapLookup m k2 := by
  cases k <;> cases k2 <;>
    simp [mapLookup, mapDelete, Iface.selfEqual, Function.update_apply]

/-- C13 as stated does not hold.  With the key NaN, `Get` after `Set(NaN, 1)`
returns nil, not the value set.  With a key of an unhashable type (here a slice)
`Set`, `Get` and `Delete` panic, so `Set` and `Delete` return no nil error. -/
theorem payload_NaN_and_unhashable_keys :
    (SessionStore.Set oneSession 1 0 Iface.nan (Iface.int 1)).2 = Except.ok none ∧
    (SessionStore.Get (SessionStore.Set oneSession 1 0 Iface.nan (Iface.int 1)).1 2 0
      Iface.nan).2 = Except.ok Iface.nil ∧
    (SessionStore.Set oneSession 1 0 (Iface.slice [1]) (Iface.int 1)).2
      = Except.error Fault.unhashableKey ∧
    (SessionStore.Get oneSession 1 0 (Iface.slice [1])).2 = Except.error Fault.unhashableKey ∧
    (SessionStore.Delete oneSession 1 0 (Iface.slice [1])).2
      = Except.error Fault.unhashableKey :=
  ⟨rfl, rfl, rfl, rfl, rfl⟩

/-- C13 (amended): for every session `s`, keys `k` and `k2` of hashable types with
`k2` different from `k`, and value `v`: after `s.Set(k, v)`, `s.Get(k)` returns `v`
when `k` is equal to itself (not NaN), and `s.Get(k2)` returns what it returned before; after
`s.Delete(k)`, `s.Get(k)` returns nil and `s.Get(k2)` returns what it returned
before; `Get` returns the value found under the key, and nil when none is found (in
particular for every such key of a session just made by `SessionInit`); `Set` and
`Delete` return a nil error; and `s.SessionID()` is the same after each of the
three. -/
theorem payload_is_finite_map (p : Provider) (s : Nat) (k k2 v : Iface) (t0 t1 t2 : Int)
    (hk : k.hashable = true) (hk2 : k2.hashable = true) (hne : k2 ≠ k) :
    (k ≠ Iface.nan →
      (SessionStore.Get (SessionStore.Set p t1 s k v).1 t2 s k).2 = Except.ok v) ∧
    (SessionStore.Get (SessionStore.Set p t1 s k v).1 t2 s k2).2
      = (SessionStore.Get p t0 s k2).2 ∧
    (SessionStore.Get (SessionStore.Delete p t1 s k).1 t2 s k).2 = Except.ok Iface.nil ∧
    (SessionStore.Get (SessionStore.Delete p t1 s k).1 t2 s k2).2
      = (SessionStore.Get p t0 s k2).2 ∧
    (SessionStore.Get p t0 s k).2
      = Except.ok ((mapLookup (p.heap s).value k).getD Iface.nil) ∧
    (∀ id, (SessionStore.Get (SessionInit p t0 id).1 t1 (SessionInit p t0 id).2.1 k).2
      = Except.ok Iface.nil) ∧
    (SessionStore.Set p t1 s k v).2 = Except.ok none ∧
    (SessionStore.Delete p t1 s k).2 = Except.ok none ∧
    SessionStore.SessionID (SessionStore.Set p t1 s k v).1 s = SessionStore.SessionID p s ∧
    SessionStore.SessionID (SessionStore.Delete p t1 s k).1 s = SessionStore.SessionID p s ∧
    SessionStore.SessionID (SessionStore.Get p t1 s k).1 s = SessionStore.SessionID p s := by
  obtain ⟨hS1, hS2, hS3⟩ := Set_record p t1 s k v hk
  obtain ⟨hD1, hD2, hD3⟩ := Delete_record p t1 s k hk
  refine ⟨?_, ?_, ?_, ?_, Get_result p t0 s k hk, ?_, hS3, hD3, hS2, hD2, ?_⟩
  · intro hnan
    rw [Get_result _ _ _ _ hk, hS1, mapLookup_mapStore]
    simp [hnan]
  · rw [Get_result _ _ _ _ hk2, Get_result _ _ _ _ hk2, hS1, mapLookup_mapStore]
    simp [hne]
  · rw [Get_result _ _ _ _ hk, hD1, mapLookup_mapDelete]
    simp
  · rw [Get_result _ _ _ _ hk2, Get_result _ _ _ _ hk2, hD1, mapLookup_mapDelete]
    simp [hne]
  · intro id
    rw [Get_result _ _ _ _ hk]
    simp [SessionInit, emptyValue, mapLookup]
  · simp only [SessionStore.SessionID, Get_state]
    exact (SessionUpdate_record p t1 (p.heap s).sid s).2

/-- Witness of `payload_is_finite_map`: the session `a` holding `k = 1`, the keys
`k` and `j`. -/
theorem payload_is_finite_map_witness :
    (Iface.hashable (Iface.str "k") = true ∧ Iface.hashable (Iface.str "j") = true ∧
      Iface.str "j" ≠ Iface.str "k") ∧
    (Iface.str "k" ≠ Iface.nan →
      (SessionStore.Get (SessionStore.Set oneSessionWithPayload 1 0 (Iface.str "k")
        (Iface.int 2)).1 2 0 (Iface.str "k")).2 = Except.ok (Iface.int 2)) ∧
    (SessionStore.Get (SessionStore.Delete oneSessionWithPayload 1 0 (Iface.str "k")).1 2 0
      (Iface.str "k")).2 = Except.ok Iface.nil :=
  have h := payload_is_finite_map oneSessionWithPayload 0 (Iface.str "k") (Iface.str "j")
    (Iface.int 2) 0 1 2 (by decide) (by decide) (by decide)
  ⟨⟨by decide, by decide, by decide⟩, h.1, h.2.2.1⟩

/-! ## C14, C15: Register and NewManager -/

/-- C14: for every registry of providers, name and provider, `Register(name,
provider)` panics if and only if `provider` is nil or `name` is already registered;
otherwise it completes, and afterwards `name` maps to `provider` while every other
name maps to what it mapped to before. -/
theorem Register_panics_iff {P : Type} (providers : String → Option P) (name : String)
    (provider : Option P) :
    ((∃ msg, session.Register providers name provider = Except.error msg) ↔
      (provider = none ∨ (providers name).isSome = true)) ∧
    ((∃ msg, session.Register providers name provider = Except.error msg) ∨
      ∃ pv ps, provider = some pv ∧ session.Register providers name provider = Except.ok ps ∧
        ps name = some pv ∧ ∀ n, n ≠ name → ps n = providers n) := by
  cases provider with
  | none => simp [session.Register]
  | some pv =>
    cases h : providers name with
    | some old => simp [session.Register, h]
    | none =>
      refine ⟨by simp [session.Register, h],
        Or.inr ⟨pv, Function.update providers name (some pv), rfl, ?_, ?_, ?_⟩⟩
      · simp only [session.Register, h]
      · simp
      · intro n hn
        exact Function.update_noteq hn _ _

/-- C15: for every provider registry, `providerName`, `cookieName` and
`maxlifetime`, `NewManager` returns a nil manager and a non-nil error, whose message
names the provider, if and only if `providerName` is not registered; otherwise it
returns a nil error and a manager whose provider is the one registered under
`providerName` and whose `cookieName` and `maxlifetime` are the arguments; the
registry is unchanged in both cases. -/
theorem NewManager_unknown_iff {P : Type} (quote : String → String)
    (providers : String → Option P) (providerName cookieName : String) (maxlifetime : Int) :
    (((session.NewManager quote providers providerName cookieName maxlifetime).2.1 = none ∧
        (session.NewManager quote providers providerName cookieName maxlifetime).2.2 =
          some ("session: unknown provider " ++ quote providerName ++ " (forgotten import?)"))
      ↔ providers providerName = none) ∧
    (((session.NewManager quote providers providerName cookieName maxlifetime).2.1 = none ∧
        (session.NewManager quote providers providerName cookieName maxlifetime).2.2 ≠ none)
      ∨ ∃ pv, providers providerName = some pv ∧
        (session.NewManager quote providers providerName cookieName maxlifetime).2.2 = none ∧
        (session.NewManager quote providers providerName cookieName maxlifetime).2.1 =
          some { provider := pv, cookieName := cookieName, maxlifetime := maxlifetime }) ∧
    (session.NewManager quote providers providerName cookieName maxlifetime).1 = providers := by
  cases h : providers providerName with
  | none => simp [session.NewManager, h]
  | some pv => simp [session.NewManager, h]

/-! ## C16: failure of the random source -/

theorem encodeBytes_ne_nil (b : List Nat) (hb : b ≠ []) : encodeBytes b ≠ [] := by
  match b, hb with
  | [_], _ => simp [encodeBytes]
  | [_, _], _ => simp [encodeBytes]
  | _ :: _ :: _ :: _, _ => simp [encodeBytes]

/-- C16 as stated does not hold: when the random source fails, `sessionID` returns
the empty identifier, and `SessionStart` on a request without cookie completes
without any failure: on the empty registry it creates a session under the
identifier `""`. -/
theorem entropy_failure_gives_empty_identifier :
    session.Manager.sessionID none = "" ∧
    ∃ q s c, session.Manager.SessionStart memoryManager provider 0 none none
        = Except.ok (q, s, c) ∧
      q.sessions "" = some s ∧ s ∈ q.list ∧ (q.heap s).sid = "" :=
  ⟨rfl, _, _, _, rfl, by decide, by decide, by decide⟩

/-- C16 (amended): when the random source fails, `sessionID` returns the empty
identifier `""` and reports nothing, and `SessionStart` on a request without cookie
reports no failure either: it completes with the session that `SessionInit("")` of
the backend returns, so that on the memory backend a session is live under the empty
identifier afterwards; when the random source delivers its 32 bytes, the identifier
is their URL-safe base64 encoding, which is not empty. -/
theorem sessionID_of_entropy {σ : Type} (m : session.Manager (session.Provider σ)) (st : σ)
    (now : Int) (b : List Nat) (hb : b.length = 32) :
    session.Manager.sessionID none = "" ∧
    (∃ c, session.Manager.SessionStart m st now none none =
      Except.ok ((m.provider.SessionInit st now "").1,
        (m.provider.SessionInit st now "").2.1, c)) ∧
    (∀ (p : Provider) (name : String) (maxlifetime : Int), ∃ q s c,
      session.Manager.SessionStart
          { cookieName := name, provider := memory, maxlifetime := maxlifetime } p now
          none none = Except.ok (q, s, c) ∧
        q.sessions "" = some s ∧ (q.heap s).sid = "") ∧
    session.Manager.sessionID (some b) = EncodeToString b ∧
    EncodeToString b ≠ "" := by
  refine ⟨rfl, ⟨_, rfl⟩, ?_, rfl, ?_⟩
  · intro p name maxlifetime
    refine ⟨_, _, _, rfl, ?_, ?_⟩
    · simp [memory, SessionInit, session.Manager.sessionID]
    · simp [memory, SessionInit, session.Manager.sessionID]
  · intro h
    have hne : b ≠ [] := by
      intro h0
      rw [h0] at hb
      simp at hb
    have hd : (EncodeToString b).data = ("" : String).data := by rw [h]
    exact encodeBytes_ne_nil b hne hd

/-- Witness of `sessionID_of_entropy`: the memory backend, the empty registry and
thirty-two zero bytes. -/
theorem sessionID_of_entropy_witness :
    zeroEntropy.length = 32 ∧
    session.Manager.sessionID none = "" ∧
    (∃ c, session.Manager.SessionStart memoryManager provider 0 none none =
      Except.ok ((memoryManager.provider.SessionInit provider 0 "").1,
        (memoryManager.provider.SessionInit provider 0 "").2.1, c)) ∧
    session.Manager.sessionID (some zeroEntropy) = EncodeToString zeroEntropy ∧
    EncodeToString zeroEntropy ≠ "" :=
  have h := sessionID_of_entropy memoryManager provider 0 zeroEntropy (by decide)
  ⟨by decide, h.1, h.2.1, h.2.2.2.1, h.2.2.2.2⟩

/-! ## C17: lock discipline -/

theorem SessionInitT_fst (p : Provider) (now : Int) (sid : String) :
    (SessionInitT p now sid).1 = SessionInit p now sid := rfl

theorem SessionReadT_fst (p : Provider) (now : Int) (sid : String) :
    (SessionReadT p now sid).1 = SessionRead p now sid := by
  unfold SessionReadT SessionRead
  cases p.sessions sid <;> rfl

theorem SessionDestroyT_fst (p : Provider) (sid : String) :
    (SessionDestroyT p sid).1 = SessionDestroy p sid := by
  unfold SessionDestroyT SessionDestroy
  cases p.sessions sid <;> rfl

theorem SessionUpdateT_fst (p : Provider) (now : Int) (sid : String) :
    (SessionUpdateT p now sid).1 = SessionUpdate p now sid := by
  unfold SessionUpdateT SessionUpdate
  cases p.sessions sid <;> rfl

theorem gcLoopT_fst (now maxlifetime : Int) :
    ∀ (n : Nat) (p : Provider), (gcLoopT n p now maxlifetime).1 = gcLoop n p now maxlifetime := by
  intro n
  induction n with
  | zero => intro p; rfl
  | succ n ih =>
    intro p
    simp only [gcLoopT, gcLoop]
    cases Back p.list with
    | none => rfl
    | some e =>
      simp only
      split
      · exact ih _
      · rfl

theorem SessionGCT_fst (p : Provider) (now maxlifetime : Int) :
    (SessionGCT p now maxlifetime).1 = SessionGC p now maxlifetime := by
  simp only [SessionGCT, gcLoopT_fst, SessionGC]
  exact gcLoop_fuel now maxlifetime (p.list.length + 1) p (Nat.le_succ _)

theorem SessionInitT_guarded (p : Provider) (now : Int) (sid : String) :
    Guarded (SessionInitT p now sid).2 := by
  simp [Guarded, SessionInitT, guardedFrom]

theorem SessionUpdateT_guarded (p : Provider) (now : Int) (sid : String) :
    Guarded (SessionUpdateT p now sid).2 := by
  unfold SessionUpdateT
  cases p.sessions sid <;> simp [Guarded, guardedFrom]

theorem gcLoopT_guarded (now maxlifetime : Int) :
    ∀ (n : Nat) (p : Provider),
      guardedFrom true ((gcLoopT n p now maxlifetime).2 ++ [Event.unlock]) = true := by
  intro n
  induction n with
  | zero => intro p; simp [gcLoopT, guardedFrom]
  | succ n ih =>
    intro p
    simp only [gcLoopT]
    cases Back p.list with
    | none => simp [guardedFrom]
    | some e =>
      simp only
      split
      · simpa [guardedFrom] using ih (gcRemove p e)
      · simp [guardedFrom]

theorem SessionGCT_guarded (p : Provider) (now maxlifetime : Int) :
    Guarded (SessionGCT p now maxlifetime).2 := by
  simp only [Guarded, SessionGCT, guardedFrom]
  exact gcLoopT_guarded now maxlifetime _ p

/-- C17 fails on the code: `SessionDestroy` never takes the lock, and `SessionRead`
looks the identifier up before any lock is taken.  For the live id `a`,
`SessionDestroy("a")` reads the identifier map, deletes from it and unlinks from the
index with the mutex free; `SessionRead` reads the identifier map with the mutex
free, for a live id and for an unknown one.  `SessionInit`, `SessionUpdate` and
`SessionGC` make all their accesses between `Lock` and `Unlock`. -/
theorem SessionDestroy_SessionRead_without_lock :
    oneSession.sessions "a" = some 0 ∧
    (SessionDestroyT oneSession "a").2 = [Event.mapRead, Event.mapWrite, Event.listWrite] ∧
    ¬ Guarded (SessionDestroyT oneSession "a").2 ∧
    ¬ Guarded (SessionDestroyT oneSession "b").2 ∧
    (SessionReadT oneSession 5 "a").2 =
      [Event.mapRead, Event.lock, Event.listWrite, Event.mapWrite, Event.unlock] ∧
    ¬ Guarded (SessionReadT oneSession 5 "a").2 ∧
    ¬ Guarded (SessionReadT oneSession 5 "b").2 ∧
    Guarded (SessionInitT oneSession 5 "b").2 ∧
    Guarded (SessionUpdateT oneSession 5 "a").2 ∧
    Guarded (SessionGCT oneSession 100 10).2 :=
  ⟨by decide, by decide, by decide, by decide, by decide, by decide, by decide, by decide,
    by decide, by decide⟩

/-! ## C18: the sweep stops at the first entry that has not expired -/

theorem gcLoop_length_le (now maxlifetime : Int) :
    ∀ (n : Nat) (p : Provider), (gcLoop n p now maxlifetime).list.length ≤ p.list.length := by
  intro n
  induction n with
  | zero => intro p; exact Nat.le_refl _
  | succ n ih =>
    intro p
    simp only [gcLoop]
    cases hb : Back p.list with
    | none => exact Nat.le_refl _
    | some e =>
      simp only
      split
      · refine Nat.le_trans (ih _) ?_
        simp only [gcRemove, Remove]
        exact (List.erase_sublist e p.list).length_le
      · exact Nat.le_refl _

/-- On an index that links no element twice the loop unlinks the trailing run of
expired entries and leaves the session records alone. -/
theorem gcLoop_list (now maxlifetime : Int) :
    ∀ (n : Nat) (p : Provider), p.list.Nodup → p.list.length ≤ n →
      (gcLoop n p now maxlifetime).heap = p.heap ∧
      (gcLoop n p now maxlifetime).list = p.list.rdropWhile (expired p now maxlifetime) := by
  intro n
  induction n with
  | zero =>
    intro p _ hlen
    have hnil : p.list = [] := List.length_eq_zero.mp (Nat.le_zero.mp hlen)
    exact ⟨rfl, by simp [gcLoop, hnil]⟩
  | succ n ih =>
    intro p hnd hlen
    cases hb : Back p.list with
    | none =>
      have hnil : p.list = [] := List.getLast?_eq_none_iff.mp hb
      have hq : gcLoop (n + 1) p now maxlifetime = p := by simp only [gcLoop, hb]
      rw [hq]
      exact ⟨rfl, by simp [hnil]⟩
    | some e =>
      obtain ⟨l, hl⟩ := List.getLast?_eq_some_iff.mp hb
      have hnd2 : (l ++ [e]).Nodup := hl ▸ hnd
      have hel : e ∉ l := fun hin => (List.nodup_append.mp hnd2).2.2 hin (by simp)
      have herase : (gcRemove p e).list = l := by
        simp only [gcRemove, Remove, hl]
        rw [List.erase_append_right _ hel]
        simp
      by_cases hx : expired p now maxlifetime e = true
      · have hq : gcLoop (n + 1) p now maxlifetime =
            gcLoop n (gcRemove p e) now maxlifetime := by
          simp only [gcLoop, hb, hx, if_true]
        rw [hq]
        have hlen2 : (gcRemove p e).list.length ≤ n := by
          rw [herase]
          rw [hl] at hlen
          simp at hlen
          exact hlen
        have hnd3 : (gcRemove p e).list.Nodup := by
          rw [herase]
          exact (List.nodup_append.mp hnd2).1
        obtain ⟨h1, h2⟩ := ih (gcRemove p e) hnd3 hlen2
        have hexp : expired (gcRemove p e) now maxlifetime = expired p now maxlifetime := rfl
        rw [herase, hexp] at h2
        exact ⟨h1, by rw [h2, hl, List.rdropWhile_concat_pos _ _ _ hx]⟩
      · have hq : gcLoop (n + 1) p now maxlifetime = p := by
          simp [gcLoop, hb, hx]
        rw [hq]
        exact ⟨rfl, by rw [hl, List.rdropWhile_concat_neg _ _ _ hx]⟩

/-- The entries dropped by `rdropWhile` form a tail all of whose members satisfy
the test. -/
theorem rdropWhile_split (P : Nat → Bool) :
    ∀ l : List Nat, ∃ tail, l = l.rdropWhile P ++ tail ∧ ∀ a ∈ tail, P a = true := by
  intro l
  induction l using List.reverseRecOn with
  | nil => exact ⟨[], by simp, by simp⟩
  | append_singleton l x ih =>
    by_cases hx : P x = true
    · obtain ⟨tail, h1, h2⟩ := ih
      refine ⟨tail ++ [x], ?_, ?_⟩
      · rw [List.rdropWhile_concat_pos _ _ _ hx, ← List.append_assoc, ← h1]
      · intro a ha
        rcases List.mem_append.mp ha with h | h
        · exact h2 a h
        · rw [List.mem_singleton.mp h]
          exact hx
    · exact ⟨[], by rw [List.rdropWhile_concat_neg _ _ _ hx]; simp, by simp⟩

theorem gcLoopT_inspected (now maxlifetime : Int) :
    ∀ (n : Nat) (p : Provider), p.list.length < n →
      inspected (gcLoopT n p now maxlifetime).2 =
        (p.list.length - (gcLoop n p now maxlifetime).list.length) +
          (if (gcLoop n p now maxlifetime).list = [] then 0 else 1) := by
  intro n
  induction n with
  | zero => intro p h; exact absurd h (Nat.not_lt_zero _)
  | succ n ih =>
    intro p hlen
    cases hb : Back p.list with
    | none =>
      have hnil : p.list = [] := List.getLast?_eq_none_iff.mp hb
      have hT : gcLoopT (n + 1) p now maxlifetime = (p, [Event.listRead]) := by
        simp only [gcLoopT, hb]
      have hG : gcLoop (n + 1) p now maxlifetime = p := by simp only [gcLoop, hb]
      rw [hT, hG]
      simp [inspected, hnil]
    | some e =>
      have hmem : e ∈ p.list := List.mem_of_getLast?_eq_some hb
      have hne : p.list ≠ [] := List.ne_nil_of_mem hmem
      by_cases hx : expired p now maxlifetime e = true
      · have hlen2 : (gcRemove p e).list.length = p.list.length - 1 := by
          simp [gcRemove, Remove, List.length_erase_of_mem hmem]
        have hpos : 0 < p.list.length := List.length_pos_of_mem hmem
        have hih := ih (gcRemove p e) (by omega)
        have hle := gcLoop_length_le now maxlifetime n (gcRemove p e)
        have hT : gcLoopT (n + 1) p now maxlifetime =
            ((gcLoopT n (gcRemove p e) now maxlifetime).1,
              [Event.listRead, Event.storeRead, Event.listWrite, Event.mapWrite] ++
                (gcLoopT n (gcRemove p e) now maxlifetime).2) := by
          simp only [gcLoopT, hb, hx, if_true]
        have hG : gcLoop (n + 1) p now maxlifetime =
            gcLoop n (gcRemove p e) now maxlifetime := by
          simp only [gcLoop, hb, hx, if_true]
        have hc : List.count Event.storeRead
            [Event.listRead, Event.storeRead, Event.listWrite, Event.mapWrite] = 1 := by decide
        rw [hT, hG]
        simp only [inspected] at hih ⊢
        rw [List.count_append, hc, hih]
        omega
      · have hT : gcLoopT (n + 1) p now maxlifetime =
            (p, [Event.listRead, Event.storeRead]) := by
          simp [gcLoopT, hb, hx]
        have hG : gcLoop (n + 1) p now maxlifetime = p := by simp [gcLoop, hb, hx]
        have hc : List.count Event.storeRead [Event.listRead, Event.storeRead] = 1 := by decide
        rw [hT, hG]
        simp only [inspected, hc, hne, if_false]
        omega

/-- C18: for every registry state whose index links no element twice (ordered or
not), lifetime `L` and time `now`, the index after `SessionGC(L)` is the index before
with exactly its maximal trailing run of expired entries removed: the removed
entries form a tail of the old index and are all expired, the kept part is the
old index up to there in the same order, and its last entry, if any, is not
expired, whatever the entries before it are.  The number of entries inspected is
the number removed plus one, or the number removed when the index ends up empty.
The loop reaches its exit within `len(list)` passes, and more passes change nothing. -/
theorem SessionGC_early_stop (p : Provider) (now L : Int) (hnd : p.list.Nodup) :
    (SessionGC p now L).list = p.list.rdropWhile (expired p now L) ∧
    (∃ tail, p.list = (SessionGC p now L).list ++ tail ∧
      ∀ e ∈ tail, expired p now L e = true) ∧
    (Back (SessionGC p now L).list = none ∨
      ∃ e, Back (SessionGC p now L).list = some e ∧ expired p now L e = false) ∧
    (SessionGCT p now L).1 = SessionGC p now L ∧
    inspected (SessionGCT p now L).2 =
      (p.list.length - (SessionGC p now L).list.length) +
        (if (SessionGC p now L).list = [] then 0 else 1) ∧
    (∀ n, p.list.length ≤ n → gcLoop n p now L = SessionGC p now L) := by
  obtain ⟨hheap, hlist⟩ := gcLoop_list now L p.list.length p hnd (Nat.le_refl _)
  have hlist2 : (SessionGC p now L).list = p.list.rdropWhile (expired p now L) := hlist
  refine ⟨hlist2, ?_, ?_, SessionGCT_fst p now L, ?_, ?_⟩
  · rw [hlist2]
    exact rdropWhile_split _ p.list
  · have hexit := gcLoop_exit now L p.list.length p (Nat.le_refl _)
    have hexp : expired (gcLoop p.list.length p now L) now L = expired p now L := by
      funext e
      simp only [expired, hheap]
    rw [hexp] at hexit
    exact hexit
  · have h := gcLoopT_inspected now L (p.list.length + 1) p (Nat.lt_succ_self _)
    have hfuel := gcLoop_fuel now L (p.list.length + 1) p (Nat.le_succ _)
    rw [hfuel] at h
    simpa [SessionGCT, inspected, List.count_cons, List.count_append] using h
  · intro n hn
    exact gcLoop_fuel now L n p hn

/-- Witness of `SessionGC_early_stop`: the index `a` (touched at 0), `b` (touched
at 10), which is not ordered, swept at 100 with lifetime 95: `a` has expired but is
kept, because the sweep stops at `b`. -/
theorem SessionGC_early_stop_witness :
    twoSessions.list.Nodup ∧
    (SessionGC twoSessions 100 95).list = twoSessions.list.rdropWhile (expired twoSessions 100 95) ∧
    inspected (SessionGCT twoSessions 100 95).2 =
      (twoSessions.list.length - (SessionGC twoSessions 100 95).list.length) +
        (if (SessionGC twoSessions 100 95).list = [] then 0 else 1) :=
  have h := SessionGC_early_stop twoSessions 100 95 (by decide)
  ⟨by decide, h.1, h.2.2.2.2.1⟩

/-! ## C19: the identifier SessionDestroy passes to the backend -/

theorem Manager_SessionStart_cookie {σ : Type} (m : session.Manager (session.Provider σ))
    (st : σ) (now : Int) (entropy : Option (List Nat)) (c : String) (hc : c ≠ "") :
    session.Manager.SessionStart m st now entropy (some c) =
      match m.provider.SessionRead st now (startIdentifier c) with
      | Except.error f => Except.error f
      | Except.ok r => Except.ok (r.1, r.2.1, none) := by
  simp [session.Manager.SessionStart, startIdentifier, hc]

theorem Manager_SessionDestroy_cookie {σ : Type} (m : session.Manager (session.Provider σ))
    (st : σ) (now : Int) (c : String) (hc : c ≠ "") :
    (session.Manager.SessionDestroy m st now (some c)).1 =
      (m.provider.SessionDestroy st (destroyIdentifier c)).1 := by
  simp [session.Manager.SessionDestroy, destroyIdentifier, hc]

theorem escapeChars_length_le : ∀ l : List Char, l.length ≤ (escapeChars l).length := by
  intro l
  induction l with
  | nil => simp [escapeChars]
  | cons c rest ih =>
    simp only [escapeChars]
    split
    · simp; exact ih
    · split
      · simp; omega
      · simp; exact ih

theorem escapeChars_length_lt :
    ∀ l : List Char, '=' ∈ l → l.length < (escapeChars l).length := by
  intro l
  induction l with
  | nil => intro h; simp at h
  | cons c rest ih =>
    intro h
    by_cases hc : c = '='
    · subst hc
      have hle := escapeChars_length_le rest
      have h1 : ¬ ('=' = ' ') := by decide
      have h2 : shouldEscape '=' = true := by decide
      simp only [escapeChars, h1, h2, if_true, if_false, List.length_cons]
      omega
    · have hr : '=' ∈ rest := by
        rcases List.mem_cons.mp h with h | h
        · exact absurd h.symm hc
        · exact h
      have hlt := ih hr
      simp only [escapeChars]
      split
      · simp; exact hlt
      · split
        · simp; omega
        · simp; exact hlt

theorem mem_encodeBytes :
    ∀ (n : Nat) (b : List Nat), b.length ≤ n → b.length % 3 ≠ 0 → '=' ∈ encodeBytes b := by
  intro n
  induction n using Nat.strong_induction_on with
  | _ n ih =>
    intro b hn hb
    match b, hn, hb with
    | [], _, hb => simp at hb
    | [_], _, _ => simp [encodeBytes]
    | [_, _], _, _ => simp [encodeBytes]
    | _ :: _ :: _ :: rest, hn, hb =>
      simp only [encodeBytes, List.mem_cons]
      right; right; right; right
      simp only [List.length_cons] at hn hb
      exact ih rest.length (by omega) rest (Nat.le_refl _) (by omega)

/-- For every 32 bytes from the random source, the cookie value `SessionStart`
issues, which is what `SessionDestroy` hands to the backend, differs from the
identifier under which the session was created. -/
theorem issued_cookie_ne_sid (b : List Nat) (hb : b.length = 32) :
    destroyIdentifier (QueryEscape (EncodeToString b)) ≠ EncodeToString b := by
  intro h
  have hd : escapeChars (encodeBytes b) = encodeBytes b := by
    have := congrArg String.data h
    simpa [destroyIdentifier, QueryEscape, EncodeToString] using this
  have hlt := escapeChars_length_lt (encodeBytes b)
    (mem_encodeBytes b.length b (Nat.le_refl _) (by omega))
  rw [hd] at hlt
  exact Nat.lt_irrefl _ hlt

/-- C19 fails on the code: `Manager.SessionDestroy` passes the cookie value as it
is, while `Manager.SessionStart` passes its query-unescaped form.  With thirty-two
zero bytes from the random source, `SessionStart` on the empty registry creates the
session `AAA…A=` and issues the cookie value `AAA…A%3D`; for that cookie
`SessionStart` would read the identifier `AAA…A=`, but `SessionDestroy` asks the
backend to destroy `AAA…A%3D`, and the session stays in the identifier map and in
the index. -/
theorem Manager_SessionDestroy_keeps_session :
    EncodeToString zeroEntropy = "AAAAAAAAAAAAAAAAAAAAAAAAAAAAAAAAAAAAAAAAAAA=" ∧
    ∃ q s c, session.Manager.SessionStart memoryManager provider 0 (some zeroEntropy) none
        = Except.ok (q, s, some c) ∧
      c.Value = "AAAAAAAAAAAAAAAAAAAAAAAAAAAAAAAAAAAAAAAAAAA%3D" ∧
      q.sessions "AAAAAAAAAAAAAAAAAAAAAAAAAAAAAAAAAAAAAAAAAAA=" = some s ∧
      startIdentifier c.Value = "AAAAAAAAAAAAAAAAAAAAAAAAAAAAAAAAAAAAAAAAAAA=" ∧
      destroyIdentifier c.Value = "AAAAAAAAAAAAAAAAAAAAAAAAAAAAAAAAAAAAAAAAAAA%3D" ∧
      startIdentifier c.Value ≠ destroyIdentifier c.Value ∧
      (session.Manager.SessionDestroy memoryManager q 1 (some c.Value)).1.sessions "AAAAAAAAAAAAAAAAAAAAAAAAAAAAAAAAAAAAAAAAAAA="
        = some s ∧
      s ∈ (session.Manager.SessionDestroy memoryManager q 1 (some c.Value)).1.list :=
  ⟨by decide, _, _, _, rfl, by decide, by decide, by decide, by decide, by decide, by decide,
    by decide⟩

/-! ## C20: the sweep and sessions within their lifetime -/

theorem mem_rdropWhile (P : Nat → Bool) (l : List Nat) (a : Nat) (ha : a ∈ l)
    (hP : P a = false) : a ∈ l.rdropWhile P := by
  obtain ⟨tail, h1, h2⟩ := rdropWhile_split P l
  rw [h1] at ha
  rcases List.mem_append.mp ha with h | h
  · exact h
  · rw [h2 a h] at hP
    exact Bool.noConfusion hP

theorem SessionGC_keeps_of_one (p : Provider) (now L : Int) (k : String) (e : Nat)
    (hone : OneEntryPerSession p) (hk : p.sessions k = some e)
    (hrange : InInt64 ((p.heap e).timeAccessed + L))
    (hvalid : now ≤ (p.heap e).timeAccessed + L) :
    (SessionGC p now L).sessions k = some e ∧ (SessionGC p now L).heap e = p.heap e ∧
    e ∈ (SessionGC p now L).list := by
  obtain ⟨h1, _, h3, h4⟩ := gcLoop_spec now L p.list.length p hone (Nat.le_refl _)
  have hexp : expired p now L e = false := by
    simp only [expired, wrapInt64_eq _ hrange, decide_eq_false_iff_not]
    omega
  have hin : e ∈ (SessionGC p now L).list := by
    show e ∈ (gcLoop p.list.length p now L).list
    rw [h3]
    exact mem_rdropWhile _ _ e (hone.wf.linked k e hk).1 hexp
  have hq : (SessionGC p now L).sessions k =
      if e ∈ (SessionGC p now L).list then some e else none := h4 k e hk
  rw [if_pos hin] at hq
  have hheap : (SessionGC p now L).heap = p.heap := h1
  exact ⟨hq, by rw [hheap], hin⟩

/-- C20 as stated does not hold: after `SessionInit("a")` at 0, `SessionRead("a")`
at 100 (or a second `SessionInit("a")` at 100) and `SessionUpdate("a")` at 100, the
key `a` is mapped to the session at address 1, last accessed at 100, and the index
still links the first session with sid `a` at its back.  `SessionGC(50)` at 100
unlinks that old entry and deletes the key `a`, although
`lastAccessed + L = 150 >= 100` for the mapped session. -/
theorem SessionGC_evicts_valid_session :
    (∃ q, run provider [(0, Call.init "a"), (100, Call.read "a"), (100, Call.update "a")]
        = Except.ok q ∧
      q.sessions "a" = some 1 ∧ (100 : Int) ≤ (q.heap 1).timeAccessed + 50 ∧
      (SessionGC q 100 50).sessions "a" = none) ∧
    (∃ q, run provider [(0, Call.init "a"), (100, Call.init "a"), (100, Call.update "a")]
        = Except.ok q ∧
      q.sessions "a" = some 1 ∧ (100 : Int) ≤ (q.heap 1).timeAccessed + 50 ∧
      (SessionGC q 100 50).sessions "a" = none) :=
  ⟨⟨_, rfl, by decide, by decide, by decide⟩, ⟨_, rfl, by decide, by decide, by decide⟩⟩

/-- C20 (amended): in every registry state reached from the empty registry by a
sequence of `SessionInit` calls made with an id that is not live at the moment of
the call and of `SessionUpdate`, `SessionDestroy` and `SessionGC` calls (any ids,
any clock; no `SessionRead`), for every `L` and `now`, every id that is a key of the
identifier map before `SessionGC(L)` and whose mapped session has
`lastAccessed + L >= now`, the sum being inside the `int64` range, is still a key
after `SessionGC(L)`, mapped to the same session, whose record is unchanged and
whose entry is still in the index. -/
theorem SessionGC_keeps_valid_session (calls : List (Int × Call))
    (h : initsFresh provider calls = true) :
    ∃ q, run provider calls = Except.ok q ∧
      ∀ (L now : Int) (k : String) (e : Nat), q.sessions k = some e →
        InInt64 ((q.heap e).timeAccessed + L) → now ≤ (q.heap e).timeAccessed + L →
        (SessionGC q now L).sessions k = some e ∧ (SessionGC q now L).heap e = q.heap e ∧
        e ∈ (SessionGC q now L).list := by
  obtain ⟨q, hq, hone⟩ := run_one_of_initsFresh calls provider provider_one h
  exact ⟨q, hq, fun L now k e hk hr hv => SessionGC_keeps_of_one q now L k e hone hk hr hv⟩

/-- Witness of `SessionGC_keeps_valid_session`: two sessions created, one touched. -/
theorem SessionGC_keeps_valid_session_witness :
    initsFresh provider [(0, Call.init "a"), (10, Call.init "b"), (50, Call.update "a")]
      = true ∧
    ∃ q, run provider [(0, Call.init "a"), (10, Call.init "b"), (50, Call.update "a")]
        = Except.ok q ∧
      ∀ (L now : Int) (k : String) (e : Nat), q.sessions k = some e →
        InInt64 ((q.heap e).timeAccessed + L) → now ≤ (q.heap e).timeAccessed + L →
        (SessionGC q now L).sessions k = some e ∧ (SessionGC q now L).heap e = q.heap e ∧
        e ∈ (SessionGC q now L).list :=
  ⟨by decide, SessionGC_keeps_valid_session _ (by decide)⟩

end GoSession
